import Mathlib

/-!
Verification of the Grafana dashboard normalization tool
(`scripts/grafana/normalize_dashboards.py`) and of the spec's claims about it.

The script is embedded shallowly:
* JSON values are modelled by `JVal` (Python dicts become insertion-ordered
  association lists, as CPython dicts are insertion-ordered; numbers are
  modelled as integers, which covers every value the claims exercise).
* Reading a file either fails to parse or yields a `JVal`; `json.loads` is an
  external trusted component, so a file is modelled directly by its parse
  outcome (`FileContent`).
* The unbounded `while` loops of the script (uid collision resolution, title
  collision resolution) are modelled with explicit fuel returning `Option`;
  exhausted fuel is reported as a distinct outcome and never silently
  produces a value.
* Python string operations (`strip`, `lower`, the two `re.sub` calls) are
  modelled character-for-character for the ASCII range that the script's
  constants and the claims exercise.
-/

/-- JSON values as produced by `json.loads`. -/
inductive JVal where
  | null : JVal
  | bool : Bool → JVal
  | num : Int → JVal
  | str : String → JVal
  | arr : List JVal → JVal
  | obj : List (String × JVal) → JVal

mutual
/-- Decidable equality for `JVal` (the nested inductive prevents deriving it). -/
def decEqJ : (a b : JVal) → Decidable (a = b)
  | .null, .null => .isTrue rfl
  | .null, .bool _ => .isFalse (fun h => JVal.noConfusion h)
  | .null, .num _ => .isFalse (fun h => JVal.noConfusion h)
  | .null, .str _ => .isFalse (fun h => JVal.noConfusion h)
  | .null, .arr _ => .isFalse (fun h => JVal.noConfusion h)
  | .null, .obj _ => .isFalse (fun h => JVal.noConfusion h)
  | .bool _, .null => .isFalse (fun h => JVal.noConfusion h)
  | .bool x, .bool y =>
    match decEq x y with
    | .isTrue h => .isTrue (by rw [h])
    | .isFalse hne => .isFalse (fun h => hne (by injection h))
  | .bool _, .num _ => .isFalse (fun h => JVal.noConfusion h)
  | .bool _, .str _ => .isFalse (fun h => JVal.noConfusion h)
  | .bool _, .arr _ => .isFalse (fun h => JVal.noConfusion h)
  | .bool _, .obj _ => .isFalse (fun h => JVal.noConfusion h)
  | .num _, .null => .isFalse (fun h => JVal.noConfusion h)
  | .num _, .bool _ => .isFalse (fun h => JVal.noConfusion h)
  | .num x, .num y =>
    match decEq x y with
    | .isTrue h => .isTrue (by rw [h])
    | .isFalse hne => .isFalse (fun h => hne (by injection h))
  | .num _, .str _ => .isFalse (fun h => JVal.noConfusion h)
  | .num _, .arr _ => .isFalse (fun h => JVal.noConfusion h)
  | .num _, .obj _ => .isFalse (fun h => JVal.noConfusion h)
  | .str _, .null => .isFalse (fun h => JVal.noConfusion h)
  | .str _, .bool _ => .isFalse (fun h => JVal.noConfusion h)
  | .str _, .num _ => .isFalse (fun h => JVal.noConfusion h)
  | .str x, .str y =>
    match decEq x y with
    | .isTrue h => .isTrue (by rw [h])
    | .isFalse hne => .isFalse (fun h => hne (by injection h))
  | .str _, .arr _ => .isFalse (fun h => JVal.noConfusion h)
  | .str _, .obj _ => .isFalse (fun h => JVal.noConfusion h)
  | .arr _, .null => .isFalse (fun h => JVal.noConfusion h)
  | .arr _, .bool _ => .isFalse (fun h => JVal.noConfusion h)
  | .arr _, .num _ => .isFalse (fun h => JVal.noConfusion h)
  | .arr _, .str _ => .isFalse (fun h => JVal.noConfusion h)
  | .arr xs, .arr ys =>
    match decEqListJ xs ys with
    | .isTrue h => .isTrue (by rw [h])
    | .isFalse hne => .isFalse (fun h => hne (by injection h))
  | .arr _, .obj _ => .isFalse (fun h => JVal.noConfusion h)
  | .obj _, .null => .isFalse (fun h => JVal.noConfusion h)
  | .obj _, .bool _ => .isFalse (fun h => JVal.noConfusion h)
  | .obj _, .num _ => .isFalse (fun h => JVal.noConfusion h)
  | .obj _, .str _ => .isFalse (fun h => JVal.noConfusion h)
  | .obj _, .arr _ => .isFalse (fun h => JVal.noConfusion h)
  | .obj kvs, .obj kvs2 =>
    match decEqKvsJ kvs kvs2 with
    | .isTrue h => .isTrue (by rw [h])
    | .isFalse hne => .isFalse (fun h => hne (by injection h))

/-- Decidable equality for lists of `JVal`. -/
def decEqListJ : (xs ys : List JVal) → Decidable (xs = ys)
  | [], [] => .isTrue rfl
  | [], _ :: _ => .isFalse (fun h => List.noConfusion h)
  | _ :: _, [] => .isFalse (fun h => List.noConfusion h)
  | x :: xs, y :: ys =>
    match decEqJ x y, decEqListJ xs ys with
    | .isTrue h1, .isTrue h2 => .isTrue (by rw [h1, h2])
    | .isFalse hne, _ => .isFalse (fun h => hne (by injection h))
    | _, .isFalse hne => .isFalse (fun h => hne (by injection h))

/-- Decidable equality for dict contents. -/
def decEqKvsJ : (xs ys : List (String × JVal)) → Decidable (xs = ys)
  | [], [] => .isTrue rfl
  | [], _ :: _ => .isFalse (fun h => List.noConfusion h)
  | _ :: _, [] => .isFalse (fun h => List.noConfusion h)
  | (k1, v1) :: xs, (k2, v2) :: ys =>
    match decEq k1 k2, decEqJ v1 v2, decEqKvsJ xs ys with
    | .isTrue h0, .isTrue h1, .isTrue h2 => .isTrue (by rw [h0, h1, h2])
    | .isFalse hne, _, _ =>
      .isFalse (fun h => hne (congrArg (fun l => (l.headD (k1, v1)).1) h))
    | _, .isFalse hne, _ =>
      .isFalse (fun h => hne (congrArg (fun l => (l.headD (k1, v1)).2) h))
    | _, _, .isFalse hne => .isFalse (fun h => hne (by injection h))
end

instance : DecidableEq JVal := decEqJ

/-- Alias for the contents of a Python dict (insertion ordered). -/
abbrev Kvs := List (String × JVal)

/-- Lookup of `d.get(k)` / `d[k]` on a Python dict: first binding of the key. -/
def lookupJ (k : String) : Kvs → Option JVal
  | [] => none
  | (k', v) :: rest => if k' = k then some v else lookupJ k rest

/-- Assignment `d[k] = v` on a Python dict: update the binding in place if the
key exists, otherwise append the new binding at the end (insertion order). -/
def setKV (k : String) (v : JVal) : Kvs → Kvs
  | [] => [(k, v)]
  | (k', v') :: rest => if k' = k then (k, v) :: rest else (k', v') :: setKV k v rest

/-- Removal `d.pop(k, None)` on a Python dict: drop the binding of `k`. -/
def popKV (k : String) : Kvs → Kvs
  | [] => []
  | (k', v') :: rest => if k' = k then rest else (k', v') :: popKV k rest

/-- Python truthiness of a JSON value: `None`, `False`, `0`, `""`, `[]` and
an empty dict are falsy, everything else is truthy. -/
def jFalsy : JVal → Bool
  | .null => true
  | .bool b => !b
  | .num n => n == 0
  | .str s => s == ""
  | .arr xs => xs.isEmpty
  | .obj kvs => kvs.isEmpty

mutual
/-- Python `str()` of a JSON value (`repr` for nested containers). -/
def pyStr : JVal → String
  | .null => "None"
  | .bool true => "True"
  | .bool false => "False"
  | .num n => toString n
  | .str s => s
  | .arr xs => "[" ++ pyStrList xs ++ "]"
  | .obj kvs => "\x7b" ++ pyStrKvs kvs ++ "\x7d"

/-- Python `repr` of a JSON value, used for values nested inside containers
(strings are single-quoted there). -/
def pyRepr : JVal → String
  | .null => "None"
  | .bool true => "True"
  | .bool false => "False"
  | .num n => toString n
  | .str s => "\x27" ++ s ++ "\x27"
  | .arr xs => "[" ++ pyStrList xs ++ "]"
  | .obj kvs => "\x7b" ++ pyStrKvs kvs ++ "\x7d"

/-- Comma-separated `repr` of list elements. -/
def pyStrList : List JVal → String
  | [] => ""
  | [x] => pyRepr x
  | x :: rest => pyRepr x ++ ", " ++ pyStrList rest

/-- Comma-separated `repr` of dict items. -/
def pyStrKvs : List (String × JVal) → String
  | [] => ""
  | [(k, v)] => "\x27" ++ k ++ "\x27: " ++ pyRepr v
  | (k, v) :: rest => "\x27" ++ k ++ "\x27: " ++ pyRepr v ++ ", " ++ pyStrKvs rest
end

/-!  Python string helpers, over `List Char` with `String` wrappers. -/

/-- Whitespace characters stripped by Python `str.strip()` (ASCII range). -/
def pyIsSpace (c : Char) : Bool :=
  c = ' ' || c = '\t' || c = '\n' || c = '\x0d' || c = '\x0b' || c = '\x0c'

/-- Remove trailing characters satisfying `p` (right strip). -/
def rstripP (p : Char → Bool) (l : List Char) : List Char :=
  ((l.reverse).dropWhile p).reverse

/-- Remove leading and trailing characters satisfying `p`. -/
def stripP (p : Char → Bool) (l : List Char) : List Char :=
  rstripP p (l.dropWhile p)

/-- Python `s.strip()` (whitespace strip). -/
def pyStrip (s : String) : String :=
  (stripP pyIsSpace s.data).asString

/-- Python `s.strip("-")`. -/
def stripDashes (l : List Char) : List Char :=
  stripP (fun c => c = '-') l

/-- Python `s.lower()` for the ASCII range. -/
def pyToLower (c : Char) : Char :=
  if 65 ≤ c.toNat ∧ c.toNat ≤ 90 then Char.ofNat (c.toNat + 32) else c

/-- Characters allowed by the slug character class `[a-z0-9_-]`. -/
def isSlugChar (c : Char) : Bool :=
  (97 ≤ c.toNat && c.toNat ≤ 122) || (48 ≤ c.toNat && c.toNat ≤ 57) ||
    c.toNat = 95 || c.toNat = 45

/-- Characters allowed by the uid character class `[a-zA-Z0-9_-]`
(`_UID_ALLOWED` in the script). -/
def isUidChar (c : Char) : Bool :=
  (97 ≤ c.toNat && c.toNat ≤ 122) || (65 ≤ c.toNat && c.toNat ≤ 90) ||
    (48 ≤ c.toNat && c.toNat ≤ 57) || c.toNat = 95 || c.toNat = 45

/-- The regex substitution `re.sub(r"[^a-z0-9_-]+", "-", s)`: every maximal run
of disallowed characters becomes a single hyphen.  The boolean argument tracks
whether the previous character was part of a disallowed run. -/
def subBadGo : List Char → Bool → List Char
  | [], _ => []
  | c :: rest, prevBad =>
    if isSlugChar c then c :: subBadGo rest false
    else if prevBad then subBadGo rest true
    else '-' :: subBadGo rest true

/-- The regex substitution `re.sub(r"-{2,}", "-", s)`: every run of two or more
hyphens becomes a single hyphen (runs of one are unchanged).  The boolean
argument tracks whether the previous character was a hyphen. -/
def collapseDashGo : List Char → Bool → List Char
  | [], _ => []
  | c :: rest, prevDash =>
    if c = '-' then
      if prevDash then collapseDashGo rest true
      else '-' :: collapseDashGo rest true
    else c :: collapseDashGo rest false

/-- Matching against `_UID_ALLOWED = re.compile(r"^[a-zA-Z0-9_-]{1,40}$")`.
Every call site first strips the candidate, so the `$`-before-final-newline
subtlety of Python regexes cannot arise. -/
def uidAllowed (s : String) : Bool :=
  decide (1 ≤ s.data.length) && decide (s.data.length ≤ 40) && s.data.all isUidChar

/-- The script's `slugify_uid` (with the default `limit = 40`):
strip, lowercase, collapse disallowed runs to hyphens, collapse hyphen runs,
strip edge hyphens, truncate to 40 characters, defaulting to `"dashboard"`. -/
def slugify_uid (s : String) : String :=
  let l0 := stripP pyIsSpace s.data
  let l1 := l0.map pyToLower
  let l2 := subBadGo l1 false
  let l3 := collapseDashGo l2 false
  let l4 := stripDashes l3
  let l5 := l4.take 40
  if l5 = [] then "dashboard" else l5.asString

/-- The script's `ensure_uid`: keep a stripped uid that matches the character
class, otherwise slugify it. -/
def ensure_uid (uid : String) : String :=
  let u := pyStrip uid
  if uidAllowed u then u else slugify_uid u


/-!  Core patching logic of the script. -/

/-- Constant `PROM_UID`. -/
def PROM_UID : String := "DS_PROMETHEUS"

/-- Constant `PROM_NAME`. -/
def PROM_NAME : String := "Prometheus"

/-- Constant `GRAFANA_INTERNAL_UID`. -/
def GRAFANA_INTERNAL_UID : String := "-- Grafana --"

/-- Constant `GRAFANA_INTERNAL_TYPE`. -/
def GRAFANA_INTERNAL_TYPE : String := "grafana"

/-- The script's `is_grafana_internal_ds`: the object's `type` is `"grafana"`
or its `uid` is `"-- Grafana --"`. -/
def is_grafana_internal_ds (kvs : Kvs) : Bool :=
  lookupJ "type" kvs == some (.str GRAFANA_INTERNAL_TYPE) ||
    lookupJ "uid" kvs == some (.str GRAFANA_INTERNAL_UID)

/-- The script's `prom_ds_object()`. -/
def prom_ds_object : JVal :=
  .obj [("type", .str "prometheus"), ("uid", .str PROM_UID)]

/-- The `looks_like_prom` test inside `normalize_datasource_value`:
`ds_type == "prometheus" or ds_uid in (PROM_UID, "${DS_PROMETHEUS}",
"${DS_PROMETHEUS}") or ds_name == PROM_NAME` (the f-string
`f"${{{PROM_UID}}}"` evaluates to the same placeholder literal). -/
def looks_like_prom (kvs : Kvs) : Bool :=
  lookupJ "type" kvs == some (.str "prometheus") ||
    lookupJ "uid" kvs == some (.str PROM_UID) ||
    lookupJ "uid" kvs == some (.str "$\x7bDS_PROMETHEUS\x7d") ||
    lookupJ "name" kvs == some (.str PROM_NAME)

/-- The script's `normalize_datasource_value`.  On a matching dict it sets
`type`, then sets `uid`, then pops `name`, leaving all other keys in place;
on a matching string it returns a freshly built canonical object; everything
else is returned unchanged. -/
def normalize_datasource_value (v : JVal) : JVal :=
  match v with
  | .obj kvs =>
    if is_grafana_internal_ds kvs then v
    else if looks_like_prom kvs then
      .obj (popKV "name" (setKV "uid" (.str PROM_UID)
        (setKV "type" (.str "prometheus") kvs)))
    else v
  | .str s =>
    let t := pyStrip s
    if t = GRAFANA_INTERNAL_UID then
      .obj [("type", .str GRAFANA_INTERNAL_TYPE), ("uid", .str GRAFANA_INTERNAL_UID)]
    else if t = PROM_NAME ∨ t = PROM_UID ∨ t = "$\x7bDS_PROMETHEUS\x7d" then
      prom_ds_object
    else v
  | _ => v

mutual
/-- The script's `walk_and_patch`: on a dict, first reassign the value under a
`"datasource"` key (if any) to its normalized form, then recursively walk
every value of the (updated) dict; on a list, walk every element; atoms are
returned unchanged.  Because the reassigned datasource value is itself then
walked, the datasource entry is handled by the fused `walkNormed` below. -/
def walkVal : JVal → JVal
  | .obj kvs => .obj (walkEnts false kvs)
  | .arr xs => .arr (walkArr xs)
  | v => v

/-- Walk the entries of a dict.  The boolean records whether the (single)
`"datasource"` binding has already been handled: Python dict keys are unique,
so only the first binding of `"datasource"` is reassigned. -/
def walkEnts : Bool → Kvs → Kvs
  | _, [] => []
  | dsDone, (k, v) :: rest =>
    if k = "datasource" ∧ ¬dsDone then
      (k, walkNormed v) :: walkEnts true rest
    else
      (k, walkVal v) :: walkEnts dsDone rest

/-- Walk every element of a list value. -/
def walkArr : List JVal → List JVal
  | [] => []
  | x :: rest => walkVal x :: walkArr rest

/-- Fusion of `walkVal ∘ normalize_datasource_value`, written so that the
recursion stays structural: the dict rewritten by
`normalize_datasource_value` differs from the original only by constant
string values under `type`/`uid`, the dropped first `name` binding, and
constant bindings appended at the end, so the walk of the rewritten dict can
be expressed as a single pass over the original entries (`walkDSEnts`).
`walkNormed_eq` below proves the fusion correct. -/
def walkNormed : JVal → JVal
  | .obj kvs =>
    if is_grafana_internal_ds kvs then .obj (walkEnts false kvs)
    else if looks_like_prom kvs then .obj (walkDSEnts false false false false kvs)
    else .obj (walkEnts false kvs)
  | .str s =>
    let t := pyStrip s
    if t = GRAFANA_INTERNAL_UID then
      .obj [("type", .str GRAFANA_INTERNAL_TYPE), ("uid", .str GRAFANA_INTERNAL_UID)]
    else if t = PROM_NAME ∨ t = PROM_UID ∨ t = "$\x7bDS_PROMETHEUS\x7d" then
      prom_ds_object
    else .str s
  | .arr xs => .arr (walkArr xs)
  | v => v

/-- Walk of the entries of a prometheus-matching datasource dict after its
rewrite: the first `type` and first `uid` bindings take the canonical string
values, the first `name` binding is dropped, missing `type`/`uid` bindings are
appended at the end (in that order, matching the two `d[k] = v` assignments),
and every remaining value is walked, reassigning a nested `"datasource"`
binding exactly as `walkEnts` does.  Flags: `type` handled, `uid` handled,
`name` dropped, nested `datasource` handled. -/
def walkDSEnts : Bool → Bool → Bool → Bool → Kvs → Kvs
  | tD, uD, _, _, [] =>
    (if tD then [] else [("type", JVal.str "prometheus")]) ++
      (if uD then [] else [("uid", JVal.str PROM_UID)])
  | tD, uD, nD, dsDone, (k, v) :: rest =>
    if k = "type" ∧ ¬tD then
      ("type", JVal.str "prometheus") :: walkDSEnts true uD nD dsDone rest
    else if k = "uid" ∧ ¬uD then
      ("uid", JVal.str PROM_UID) :: walkDSEnts tD true nD dsDone rest
    else if k = "name" ∧ ¬nD then
      walkDSEnts tD uD true dsDone rest
    else if k = "datasource" ∧ ¬dsDone then
      (k, walkNormed v) :: walkDSEnts tD uD nD true rest
    else
      (k, walkVal v) :: walkDSEnts tD uD nD dsDone rest
end

mutual
/-- The script's `contains_angular`: best-effort detection of panels with
`"type": "angular"` anywhere in the tree. -/
def contains_angular : JVal → Bool
  | .obj kvs => lookupJ "type" kvs == some (.str "angular") || caKvs kvs
  | .arr xs => caList xs
  | _ => false

/-- `contains_angular` over the values of a dict. -/
def caKvs : Kvs → Bool
  | [] => false
  | (_, v) :: rest => contains_angular v || caKvs rest

/-- `contains_angular` over the elements of a list. -/
def caList : List JVal → Bool
  | [] => false
  | x :: rest => contains_angular x || caList rest
end

/-!  Paths.  Files are identified by their path relative to the dashboards
root, with `/` separators (e.g. `"docker/foo.json"`).  The script resolves
paths to absolute ones before comparing; relative paths under a fixed root
compare identically, so the model works with the relative form throughout. -/

/-- Parent directory of a relative path (`fpath.parent`): everything before
the last `/`, the empty string for a file at the root.  (`main` compares
resolved absolute parents; under a fixed root those coincide with relative
parents, with the root itself rendered here as `""`.) -/
def parentDir (p : String) : String :=
  (((p.data.reverse.dropWhile (fun c => c ≠ '/')).drop 1).reverse).asString

/-- Drop the extension of a file name, as `PurePath.with_suffix("")` does:
remove everything from the last dot on, unless there is no dot or the dot is
the leading character (dotfiles have no suffix). -/
def dropLastExt (cs : List Char) : List Char :=
  let r := cs.reverse
  let pre := r.takeWhile (fun c => c ≠ '.')
  if pre.length = r.length then cs
  else
    let rest := r.drop (pre.length + 1)
    if rest.isEmpty then cs else rest.reverse

/-- A relative path with the extension of its last segment removed
(`rel.with_suffix("")`): the last segment is the run of characters after the
last `/`, and only it loses its extension. -/
def pathNoSuffix (p : String) : String :=
  let revName := p.data.reverse.takeWhile (fun c => c ≠ '/')
  let pre := p.data.take (p.data.length - revName.length)
  (pre ++ dropLastExt revName.reverse).asString

/-- The script's `make_default_uid_for_file`:
`ensure_uid(slugify_uid(str(rel.with_suffix("")).replace("/", "-")))`. -/
def make_default_uid_for_file (p : String) : String :=
  ensure_uid (slugify_uid
    (((pathNoSuffix p).data.map (fun c => if c = '/' then '-' else c)).asString))

/-!  Manifest loading (`load_manifest`).  A manifest entry is keyed by
`folder/filename` relative to the dashboards root; the value is the optional
uid.  Besides invalid JSON, the Python function terminates with an uncaught
exception on shapes where iteration or `.get` fails; those are the `.error`
cases. -/

/-- Parse result of reading a file: `json.loads` either fails or yields a
value. -/
inductive FileContent where
  | invalid : FileContent
  | val : JVal → FileContent

/-- The entry loop of `load_manifest`: entries missing (or falsy) `folder` or
`filename` are skipped; a non-dict entry raises (`.get` on a non-dict).  A
falsy `uid` is recorded as `None`, anything else as `str(uid)`. -/
def entriesOf : List JVal → Except Unit (List (String × Option String))
  | [] => .ok []
  | (.obj d) :: rest =>
    match lookupJ "folder" d, lookupJ "filename" d with
    | some fv, some nv =>
      if jFalsy fv || jFalsy nv then entriesOf rest
      else
        let uidS := match lookupJ "uid" d with
          | none => none
          | some u => if jFalsy u then none else some (pyStr u)
        (entriesOf rest).map (fun m => (pyStr fv ++ "/" ++ pyStr nv, uidS) :: m)
    | _, _ => entriesOf rest
  | _ :: _ => .error ()

/-- The script's `load_manifest`.  Missing manifest gives an empty map;
invalid JSON raises (`RuntimeError`); a top-level non-dict raises
(`.get` on a non-dict); a `dashboards` value that is not a list raises when
iterating it yields non-dict items (iterating an empty dict or empty string
yields nothing, so those pass through silently). -/
def loadManifest : Option FileContent → Except Unit (List (String × Option String))
  | none => .ok []
  | some .invalid => .error ()
  | some (.val (.obj kvs)) =>
    match (lookupJ "dashboards" kvs).getD (.arr []) with
    | .arr ds => entriesOf ds
    | .obj [] => .ok []
    | .str "" => .ok []
    | _ => .error ()
  | some (.val _) => .error ()

/-- Lookup in the manifest map with Python-dict overwrite semantics: the last
entry written for a key wins. -/
def mLookup (p : String) : List (String × Option String) → Option (Option String)
  | [] => none
  | (k, u) :: rest =>
    match mLookup p rest with
    | some r => some r
    | none => if k = p then some u else none

/-!  UID assignment (lines 263-286 of the script). -/

/-- The manifest-less branch of uid derivation: a present, non-empty-after-
strip string uid is normalized with `ensure_uid`; otherwise the default uid is
derived from the file path. -/
def deriveFromDoc (p : String) (dash : Kvs) : String :=
  match lookupJ "uid" dash with
  | some (.str s) =>
    if pyStrip s ≠ "" then ensure_uid (pyStrip s) else make_default_uid_for_file p
  | _ => make_default_uid_for_file p

/-- Uid derivation for one document (before collision suffixing): prefer a
truthy manifest uid, then a present non-blank string uid, then the default
slug of the file path. -/
def deriveBaseUid (mmap : List (String × Option String)) (p : String) (dash : Kvs) :
    String :=
  match mLookup p mmap with
  | some (some mu) => if mu ≠ "" then ensure_uid mu else deriveFromDoc p dash
  | _ => deriveFromDoc p dash

/-- The collision `while` loop: while the candidate is used, try
`ensure_uid(f"{base}-{i}")` with increasing `i`.  Fueled: `none` models the
loop still running after `fuel` iterations. -/
def uidLoop (used : List String) (base : String) (fuel : Nat) (cur : String)
    (i : Nat) : Option String :=
  if cur ∈ used then
    match fuel with
    | 0 => none
    | f + 1 => uidLoop used base f (ensure_uid (base ++ "-" ++ Nat.repr i)) (i + 1)
  else some cur

/-- Processing of one document inside the main loop: null the `id`, derive and
de-collide the uid, store it, patch datasources recursively, drop `__inputs`
(`KEEP_INPUTS` is `False`).  On success returns the rewritten document and the
uid that was added to `used_uids`. -/
def processDoc (mmap : List (String × Option String)) (used : List String)
    (fuel : Nat) (p : String) (dash : Kvs) : Option (Kvs × String) :=
  let dash1 := setKV "id" .null dash
  let base := deriveBaseUid mmap p dash1
  match uidLoop used base fuel base 2 with
  | none => none
  | some u =>
    let dash2 := setKV "uid" (.str u) dash1
    let dash3 := walkEnts false dash2
    let dash4 := popKV "__inputs" dash3
    some (dash4, u)

/-- The main per-document loop over all loaded documents, threading
`used_uids` and collecting the angular-panel warning paths. -/
def processAll (mmap : List (String × Option String)) (fuel : Nat)
    (used : List String) :
    List (String × Kvs) → Option (List (String × Kvs) × List String)
  | [] => some ([], [])
  | (p, dash) :: rest =>
    match processDoc mmap used fuel p dash with
    | none => none
    | some (dash4, u) =>
      match processAll mmap fuel (u :: used) rest with
      | none => none
      | some (docs, angs) =>
        some ((p, dash4) :: docs,
          if contains_angular (.obj dash4) then p :: angs else angs)

/-!  Title deduplication (`ensure_unique_titles_per_folder`). -/

/-- Set of titles already seen in a folder (`seen.setdefault(folder, set())`).
Sets are modelled as lists with membership. -/
def seenOf (f : String) : List (String × List String) → List String
  | [] => []
  | (k, ts) :: rest => if k = f then ts else seenOf f rest

/-- Add a title to a folder's seen set. -/
def seenAdd (f t : String) : List (String × List String) → List (String × List String)
  | [] => [(f, [t])]
  | (k, ts) :: rest => if k = f then (k, t :: ts) :: rest else (k, ts) :: seenAdd f t rest

/-- The derived display title used for dedup decisions:
`str(dash.get("title") or "").strip() or "Dashboard"`. -/
def derivedTitle (dash : Kvs) : String :=
  let s := match lookupJ "title" dash with
    | none => ""
    | some v => if jFalsy v then "" else pyStr v
  let t := pyStrip s
  if t = "" then "Dashboard" else t

/-- The derived uid used for disambiguation:
`str(dash.get("uid") or "").strip() or "unknown"`. -/
def derivedUid (dash : Kvs) : String :=
  let s := match lookupJ "uid" dash with
    | none => ""
    | some v => if jFalsy v then "" else pyStr v
  let t := pyStrip s
  if t = "" then "unknown" else t

/-- The inner `while new_title in used` loop, fueled: try
`f"{title} ({uid}-{i})"` with increasing `i` until the composite is unused. -/
def titleLoop (usedT : List String) (title uid : String) (fuel : Nat)
    (cur : String) (i : Nat) : Option String :=
  if cur ∈ usedT then
    match fuel with
    | 0 => none
    | f + 1 =>
      titleLoop usedT title uid f
        (title ++ " (" ++ uid ++ "-" ++ Nat.repr i ++ ")") (i + 1)
  else some cur

/-- The loop body of `ensure_unique_titles_per_folder` over all documents,
threading the folder→titles map; returns the rewritten documents and the
final map. -/
def dedupGo (fuel : Nat) (seen : List (String × List String)) :
    List (String × Kvs) → Option (List (String × Kvs) × List (String × List String))
  | [] => some ([], seen)
  | (p, dash) :: rest =>
    let fkey := parentDir p
    let title := derivedTitle dash
    let uid := derivedUid dash
    let used := seenOf fkey seen
    if title ∈ used then
      match titleLoop used title uid fuel (title ++ " (" ++ uid ++ ")") 2 with
      | none => none
      | some nt =>
        match dedupGo fuel (seenAdd fkey nt seen) rest with
        | none => none
        | some (docs, seen') => some ((p, setKV "title" (.str nt) dash) :: docs, seen')
    else
      match dedupGo fuel (seenAdd fkey title seen) rest with
      | none => none
      | some (docs, seen') => some ((p, dash) :: docs, seen')

/-- The script's `ensure_unique_titles_per_folder` (result documents). -/
def ensure_unique_titles_per_folder (docs : List (String × Kvs)) (fuel : Nat) :
    Option (List (String × Kvs)) :=
  (dedupGo fuel [] docs).map (·.1)

/-!  Serialization: `json.dumps(dash, indent=2, sort_keys=False)`.  With
`ensure_ascii` (the default), characters outside the printable ASCII range are
escaped as `\uXXXX`; the model covers the Basic Multilingual Plane, which is
all the inputs in play. -/

/-- Lowercase hex digit. -/
def hexDigit (n : Nat) : Char :=
  if n < 10 then Char.ofNat (48 + n) else Char.ofNat (87 + n)

/-- Four-digit lowercase hex rendering of a code point. -/
def hex4 (n : Nat) : String :=
  ⟨[hexDigit (n / 4096 % 16), hexDigit (n / 256 % 16),
    hexDigit (n / 16 % 16), hexDigit (n % 16)]⟩

/-- JSON escaping of one character, as `json.dumps` performs it. -/
def jsonEscChar (c : Char) : String :=
  if c = '"' then "\\\""
  else if c = '\\' then "\\\\"
  else if c = '\n' then "\\n"
  else if c = '\t' then "\\t"
  else if c = '\x0d' then "\\r"
  else if c = '\x08' then "\\b"
  else if c = '\x0c' then "\\f"
  else if c.toNat < 32 ∨ c.toNat > 126 then "\\u" ++ hex4 c.toNat
  else String.singleton c

/-- JSON string literal for `s`. -/
def jsonQuote (s : String) : String :=
  "\"" ++ String.join (s.data.map jsonEscChar) ++ "\""

/-- Indentation prefix at a nesting level (two spaces per level). -/
def indentStr (lvl : Nat) : String :=
  (List.replicate (2 * lvl) ' ').asString

mutual
/-- `json.dumps(v, indent=2, sort_keys=False)` at a nesting level. -/
def dumpVal : Nat → JVal → String
  | _, .null => "null"
  | _, .bool true => "true"
  | _, .bool false => "false"
  | _, .num n => toString n
  | _, .str s => jsonQuote s
  | _, .arr [] => "[]"
  | lvl, .arr (x :: xs) =>
    "[\n" ++ dumpItemsArr (lvl + 1) (x :: xs) ++ "\n" ++ indentStr lvl ++ "]"
  | _, .obj [] => "\x7b\x7d"
  | lvl, .obj (e :: es) =>
    "\x7b\n" ++ dumpItemsObj (lvl + 1) (e :: es) ++ "\n" ++ indentStr lvl ++ "\x7d"

/-- Comma-and-newline separated items of an array. -/
def dumpItemsArr : Nat → List JVal → String
  | _, [] => ""
  | lvl, [x] => indentStr lvl ++ dumpVal lvl x
  | lvl, x :: rest =>
    indentStr lvl ++ dumpVal lvl x ++ ",\n" ++ dumpItemsArr lvl rest

/-- Comma-and-newline separated items of an object. -/
def dumpItemsObj : Nat → Kvs → String
  | _, [] => ""
  | lvl, [(k, v)] => indentStr lvl ++ jsonQuote k ++ ": " ++ dumpVal lvl v
  | lvl, (k, v) :: rest =>
    indentStr lvl ++ jsonQuote k ++ ": " ++ dumpVal lvl v ++ ",\n" ++
      dumpItemsObj lvl rest
end

/-- The text written back for one document:
`json.dumps(dash, indent=2, sort_keys=False) + "\n"`. -/
def dumpsDoc (dash : Kvs) : String :=
  dumpVal 0 (.obj dash) ++ "\n"

/-- Substring test over character lists. -/
def hasSubList (needle hay : List Char) : Bool :=
  hay.tails.any (fun t => needle.isPrefixOf t)

/-- Python's `needle in hay` on strings. -/
def strHasSub (needle hay : String) : Bool :=
  hasSubList needle.data hay.data

/-!  The driver (`main`). -/

/-- One run's input: whether the dashboards root exists, and the `*.json`
files `rglob` enumerates under it, in traversal order, each with its parse
outcome.  `rglob("*.json")` matches every regular file whose name ends in
`.json` — including `manifest.json` and dotfiles. -/
structure RunInput where
  rootExists : Bool
  files : List (String × FileContent)

/-- The manifest file's content, when a file named `manifest.json` at the root
exists (it is then necessarily among the globbed files). -/
def findManifest (files : List (String × FileContent)) : Option FileContent :=
  (files.find? (fun e => e.1 == "manifest.json")).map (·.2)

/-- The document loading loop (lines 247-257): the first file that fails to
parse, or parses to a non-object, aborts the run with exit code 3. -/
def loadDocs : List (String × FileContent) → Except Int (List (String × Kvs))
  | [] => .ok []
  | (_, .invalid) :: _ => .error 3
  | (p, .val (.obj kvs)) :: rest => (loadDocs rest).map (fun ds => (p, kvs) :: ds)
  | (_, .val _) :: _ => .error 3

/-- Outcome of a run of `main`.  `ok` carries the documents written back (in
order, with their paths), the angular-warning paths, and the count of
lingering-placeholder warnings; warnings never affect the exit code.  `err c`
is `return c`; `exc` is an uncaught Python exception (the interpreter then
exits with status 1); `fuelOut` is the model artifact for a `while` loop still
running after the provided fuel. -/
inductive Outcome where
  | ok : List (String × Kvs) → List String → Nat → Outcome
  | err : Int → Outcome
  | exc : Outcome
  | fuelOut : Outcome

/-- The final placeholder scan (lines 314-319): count written files whose text
contains the literal `"uid": "${DS_PROMETHEUS}"`. -/
def countBadHits (writes : List (String × Kvs)) : Nat :=
  writes.countP (fun w =>
    strHasSub ("\"uid\": \"$\x7bDS_PROMETHEUS\x7d\"") (dumpsDoc w.2))

/-- The script's `main`: check the root, load the manifest, load all
documents, assign uids and patch each document, deduplicate titles, write
everything back (the written documents are the `ok` payload), then scan for
lingering placeholders (warning only). -/
def mainRun (inp : RunInput) (fuel : Nat) : Outcome :=
  if !inp.rootExists then .err 2
  else
    match loadManifest (findManifest inp.files) with
    | .error _ => .exc
    | .ok mmap =>
      match loadDocs inp.files with
      | .error c => .err c
      | .ok docs =>
        match processAll mmap fuel [] docs with
        | none => .fuelOut
        | some (docs2, angs) =>
          match dedupGo fuel [] docs2 with
          | none => .fuelOut
          | some (docs3, _) => .ok docs3 angs (countBadHits docs3)

/-- Process exit status of a run: `main`'s return value on normal return, `1`
for an uncaught exception (CPython's behavior), undefined while a loop has not
terminated. -/
def exitCodeOf : Outcome → Option Int
  | .ok _ _ _ => some 0
  | .err c => some c
  | .exc => some 1
  | .fuelOut => none

/-- ASCII decimal digit test. -/
def isDigitChar (c : Char) : Bool :=
  48 ≤ c.toNat && c.toNat ≤ 57

/-- The 40-character uid `"aaaa…a"` sitting exactly at the length limit. -/
def longA : String :=
  ⟨List.replicate 40 'a'⟩

/-- Input exhibiting the stuck collision loop: two dashboards whose uid is the
same 40-character string. -/
def collideInput : RunInput :=
  ⟨true, [("a/d1.json", .val (.obj [("uid", .str longA)])),
          ("a/d2.json", .val (.obj [("uid", .str longA)]))]⟩

/-- Relation between a document before and after title deduplication: either
untouched, or retitled to the composite `"{title} ({uid})"` form (with the
optional numeric suffix on the uid portion). -/
def dedupRel (d d' : String × Kvs) : Prop :=
  d'.1 = d.1 ∧ (d'.2 = d.2 ∨ ∃ nt, d'.2 = setKV "title" (.str nt) d.2 ∧
    (nt = derivedTitle d.2 ++ " (" ++ derivedUid d.2 ++ ")" ∨
     ∃ j, 2 ≤ j ∧
       nt = derivedTitle d.2 ++ " (" ++ derivedUid d.2 ++ "-" ++ Nat.repr j ++ ")"))

/-!  Lemmas about dict operations. -/

theorem lookupJ_setKV_self (k : String) (v : JVal) (l : Kvs) :
    lookupJ k (setKV k v l) = some v := by
  induction l with
  | nil => simp [setKV, lookupJ]
  | cons e rest ih =>
    obtain ⟨k', v'⟩ := e
    by_cases h : k' = k
    · simp [setKV, h, lookupJ]
    · simp [setKV, h, lookupJ, ih]

theorem lookupJ_setKV_ne (k k' : String) (v : JVal) (l : Kvs) (h : k' ≠ k) :
    lookupJ k' (setKV k v l) = lookupJ k' l := by
  have h' : ¬ k = k' := fun he => h (Eq.symm he)
  induction l with
  | nil => simp [setKV, lookupJ, h']
  | cons e rest ih =>
    obtain ⟨k0, v0⟩ := e
    by_cases h0 : k0 = k
    · subst h0
      simp [setKV, lookupJ, h']
    · simp only [setKV, if_neg h0, lookupJ]
      by_cases h1 : k0 = k'
      · simp [h1]
      · simp [h1, ih]

theorem lookupJ_popKV_ne (k k' : String) (l : Kvs) (h : k' ≠ k) :
    lookupJ k' (popKV k l) = lookupJ k' l := by
  have h' : ¬ k = k' := fun he => h (Eq.symm he)
  induction l with
  | nil => simp [popKV]
  | cons e rest ih =>
    obtain ⟨k0, v0⟩ := e
    by_cases h0 : k0 = k
    · subst h0
      simp [popKV, lookupJ, h']
    · simp only [popKV, if_neg h0, lookupJ]
      by_cases h1 : k0 = k'
      · simp [h1]
      · simp [h1, ih]

theorem mem_keys_setKV (k k1 : String) (v : JVal) (l : Kvs)
    (h : k1 ∈ (setKV k v l).map Prod.fst) : k1 = k ∨ k1 ∈ l.map Prod.fst := by
  induction l with
  | nil =>
    simp only [setKV, List.map_cons, List.map_nil, List.mem_singleton] at h
    exact Or.inl h
  | cons e rest ih =>
    obtain ⟨k0, v0⟩ := e
    by_cases h0 : k0 = k
    · subst h0
      simp only [setKV, if_pos, List.map_cons, List.mem_cons] at h
      rcases h with h | h
      · exact Or.inl h
      · exact Or.inr (List.mem_cons_of_mem _ h)
    · simp only [setKV, if_neg h0, List.map_cons, List.mem_cons] at h
      rcases h with h | h
      · exact Or.inr (h ▸ List.mem_cons_self _ _)
      · rcases ih h with h1 | h1
        · exact Or.inl h1
        · exact Or.inr (List.mem_cons_of_mem _ h1)

theorem keys_nodup_setKV (k : String) (v : JVal) (l : Kvs)
    (h : (l.map Prod.fst).Nodup) : ((setKV k v l).map Prod.fst).Nodup := by
  induction l with
  | nil => simp [setKV]
  | cons e rest ih =>
    obtain ⟨k0, v0⟩ := e
    simp only [List.map_cons, List.nodup_cons] at h
    by_cases h0 : k0 = k
    · subst h0
      simpa [setKV, List.nodup_cons] using h
    · simp only [setKV, if_neg h0, List.map_cons, List.nodup_cons]
      refine ⟨fun hm => ?_, ih h.2⟩
      rcases mem_keys_setKV k k0 v rest hm with h1 | h1
      · exact h0 h1
      · exact h.1 h1

theorem lookupJ_eq_none_of_not_mem_keys (k : String) (l : Kvs)
    (h : k ∉ l.map Prod.fst) : lookupJ k l = none := by
  induction l with
  | nil => rfl
  | cons e rest ih =>
    obtain ⟨k0, v0⟩ := e
    simp only [List.map_cons, List.mem_cons] at h
    push_neg at h
    have h0 : ¬ k0 = k := fun he => h.1 he.symm
    simp only [lookupJ, if_neg h0, ih h.2]

theorem lookupJ_popKV_self_of_nodup (k : String) (l : Kvs)
    (h : (l.map Prod.fst).Nodup) : lookupJ k (popKV k l) = none := by
  induction l with
  | nil => rfl
  | cons e rest ih =>
    obtain ⟨k0, v0⟩ := e
    simp only [List.map_cons, List.nodup_cons] at h
    by_cases h0 : k0 = k
    · subst h0
      simp only [popKV, if_pos rfl]
      exact lookupJ_eq_none_of_not_mem_keys k0 rest h.1
    · simp only [popKV, if_neg h0, lookupJ, if_neg h0]
      exact ih h.2

/-!  Lemmas about the character-level string helpers. -/

theorem dropWhileP_eq_self (p : Char → Bool) (l : List Char)
    (h : ∀ c ∈ l, p c = false) : l.dropWhile p = l := by
  cases l with
  | nil => rfl
  | cons c rest => simp [List.dropWhile_cons, h c (List.mem_cons_self _ _)]

theorem stripP_sublist (p : Char → Bool) (l : List Char) : (stripP p l).Sublist l := by
  have h1 : (l.dropWhile p).Sublist l := List.dropWhile_sublist p
  have h2 : ((l.dropWhile p).reverse.dropWhile p).Sublist (l.dropWhile p).reverse :=
    List.dropWhile_sublist p
  have h3 := h2.reverse
  rw [List.reverse_reverse] at h3
  exact h3.trans h1

theorem mem_of_mem_stripP (p : Char → Bool) (l : List Char) (c : Char)
    (h : c ∈ stripP p l) : c ∈ l :=
  (stripP_sublist p l).subset h

theorem stripP_eq_self (p : Char → Bool) (l : List Char)
    (h : ∀ c ∈ l, p c = false) : stripP p l = l := by
  unfold stripP rstripP
  rw [dropWhileP_eq_self p l h]
  rw [dropWhileP_eq_self p l.reverse (fun c hc => h c (List.mem_reverse.1 hc))]
  exact List.reverse_reverse l

theorem stripP_eq_self_of_ends (p : Char → Bool) (l : List Char) (hne : l ≠ [])
    (hh : p (l.head hne) = false) (hl : p (l.getLast hne) = false) :
    stripP p l = l := by
  unfold stripP rstripP
  have h1 : l.dropWhile p = l := by
    cases l with
    | nil => exact absurd rfl hne
    | cons c rest =>
      have hc : p c = false := by simpa using hh
      simp [List.dropWhile_cons, hc]
  rw [h1]
  have hrne : l.reverse ≠ [] := by simpa using hne
  have h2 : l.reverse.dropWhile p = l.reverse := by
    cases hr : l.reverse with
    | nil => exact absurd hr hrne
    | cons c rest =>
      have h4 : l.getLast? = some c := by
        rw [← List.head?_reverse, hr]
        rfl
      have h5 : c = l.getLast hne := by
        rw [List.getLast?_eq_getLast l hne] at h4
        injection h4 with h4
        exact h4.symm
      have hc : p c = false := h5 ▸ hl
      simp [List.dropWhile_cons, hc]
  rw [h2, List.reverse_reverse]

theorem subBadGo_mem (l : List Char) :
    ∀ b c, c ∈ subBadGo l b → isSlugChar c = true := by
  induction l with
  | nil => intro b c h; simp [subBadGo] at h
  | cons c0 rest ih =>
    intro b c h
    by_cases h0 : isSlugChar c0
    · rw [subBadGo, if_pos h0] at h
      rcases List.mem_cons.1 h with h1 | h1
      · exact h1 ▸ h0
      · exact ih false c h1
    · rw [subBadGo, if_neg h0] at h
      cases b with
      | true => exact ih true c (by simpa using h)
      | false =>
        simp only [Bool.false_eq_true, if_false] at h
        rcases List.mem_cons.1 h with h1 | h1
        · subst h1; decide
        · exact ih true c h1

theorem collapseDashGo_mem (l : List Char) :
    ∀ b c, c ∈ collapseDashGo l b → (∀ x ∈ l, isSlugChar x = true) →
      isSlugChar c = true := by
  induction l with
  | nil => intro b c h _; simp [collapseDashGo] at h
  | cons c0 rest ih =>
    intro b c h hall
    have hall' : ∀ x ∈ rest, isSlugChar x = true :=
      fun x hx => hall x (List.mem_cons_of_mem _ hx)
    by_cases h0 : c0 = '-'
    · subst h0
      rw [collapseDashGo, if_pos rfl] at h
      cases b with
      | true => exact ih true c (by simpa using h) hall'
      | false =>
        simp only [Bool.false_eq_true, if_false] at h
        rcases List.mem_cons.1 h with h1 | h1
        · subst h1; decide
        · exact ih true c h1 hall'
    · rw [collapseDashGo, if_neg h0] at h
      rcases List.mem_cons.1 h with h1 | h1
      · exact h1 ▸ hall c0 (List.mem_cons_self _ _)
      · exact ih false c h1 hall'

theorem isUidChar_of_isSlugChar (c : Char) (h : isSlugChar c = true) :
    isUidChar c = true := by
  simp only [isSlugChar, Bool.or_eq_true, Bool.and_eq_true, decide_eq_true_eq] at h
  simp only [isUidChar, Bool.or_eq_true, Bool.and_eq_true, decide_eq_true_eq]
  omega

theorem uidAllowed_slugify (s : String) : uidAllowed (slugify_uid s) = true := by
  unfold slugify_uid
  set l4 := stripDashes (collapseDashGo
    (subBadGo ((stripP pyIsSpace s.data).map pyToLower) false) false) with hl4
  by_cases h5 : l4.take 40 = []
  · simp only [h5, if_pos]
    decide
  · simp only [h5, if_neg, ite_false]
    have hdata : (List.asString (l4.take 40)).data = l4.take 40 := rfl
    have hchars : ∀ c ∈ l4.take 40, isUidChar c = true := by
      intro c hc
      have hc4 : c ∈ l4 := List.take_subset _ _ hc
      have hc3 : c ∈ collapseDashGo
          (subBadGo ((stripP pyIsSpace s.data).map pyToLower) false) false := by
        exact mem_of_mem_stripP _ _ c hc4
      exact isUidChar_of_isSlugChar c
        (collapseDashGo_mem _ _ c hc3 (fun x hx => subBadGo_mem _ _ x hx))
    have hlen : (l4.take 40).length ≤ 40 := by
      simp
    have hpos : 1 ≤ (l4.take 40).length := by
      have : l4.take 40 ≠ [] := h5
      cases hk : l4.take 40 with
      | nil => exact absurd hk this
      | cons a as => simp [hk]
    simp only [uidAllowed, hdata, Bool.and_eq_true, decide_eq_true_eq]
    refine ⟨⟨hpos, hlen⟩, List.all_eq_true.2 hchars⟩

theorem ensure_uid_allowed (s : String) : uidAllowed (ensure_uid s) = true := by
  unfold ensure_uid
  by_cases h : uidAllowed (pyStrip s)
  · simp [h]
  · simp only [h, if_false, Bool.false_eq_true]
    exact uidAllowed_slugify (pyStrip s)

/-!  Decimal representation facts (`f"{base}-{i}"` renders `i` in decimal via
`Nat.repr`). -/

theorem digitChar_isDigit (d : Nat) (h : d < 10) :
    isDigitChar (Nat.digitChar d) = true := by
  interval_cases d <;> decide

theorem toDigitsCore_digits (fuel : Nat) :
    ∀ (n : Nat) (acc : List Char), (∀ c ∈ acc, isDigitChar c = true) →
      ∀ c ∈ Nat.toDigitsCore 10 fuel n acc, isDigitChar c = true := by
  induction fuel with
  | zero => intro n acc hacc c hc; exact hacc c hc
  | succ f ih =>
    intro n acc hacc c hc
    rw [Nat.toDigitsCore] at hc
    have hd : isDigitChar (Nat.digitChar (n % 10)) = true :=
      digitChar_isDigit _ (Nat.mod_lt _ (by norm_num))
    have hacc' : ∀ x ∈ Nat.digitChar (n % 10) :: acc, isDigitChar x = true := by
      intro x hx
      rcases List.mem_cons.1 hx with h1 | h1
      · exact h1 ▸ hd
      · exact hacc x h1
    by_cases h0 : n / 10 = 0
    · rw [if_pos h0] at hc
      exact hacc' c hc
    · rw [if_neg h0] at hc
      exact ih (n / 10) _ hacc' c hc

theorem toDigitsCore_ne_nil (fuel : Nat) :
    ∀ (n : Nat) (acc : List Char), acc ≠ [] →
      Nat.toDigitsCore 10 fuel n acc ≠ [] := by
  induction fuel with
  | zero => intro n acc hacc; exact hacc
  | succ f ih =>
    intro n acc hacc
    rw [Nat.toDigitsCore]
    by_cases h0 : n / 10 = 0
    · rw [if_pos h0]; exact List.cons_ne_nil _ _
    · rw [if_neg h0]; exact ih (n / 10) _ (List.cons_ne_nil _ _)

theorem reprNat_chars (n : Nat) :
    ∀ c ∈ (Nat.repr n).data, isDigitChar c = true := by
  intro c hc
  have : (Nat.repr n).data = Nat.toDigits 10 n := rfl
  rw [this, Nat.toDigits] at hc
  exact toDigitsCore_digits (n + 1) n [] (by intro x hx; cases hx) c hc

theorem reprNat_ne_nil (n : Nat) : (Nat.repr n).data ≠ [] := by
  have : (Nat.repr n).data = Nat.toDigits 10 n := rfl
  rw [this, Nat.toDigits, Nat.toDigitsCore]
  by_cases h0 : n / 10 = 0
  · rw [if_pos h0]; exact List.cons_ne_nil _ _
  · rw [if_neg h0]; exact toDigitsCore_ne_nil n (n / 10) _ (List.cons_ne_nil _ _)

/-!  Non-termination of the uid collision loop at the 40-character limit:
`ensure_uid (base ++ "-" ++ repr i)` slugifies (the candidate is 42+
characters, failing the length bound) and the slug truncates right back to
`base`, so the loop never makes progress. -/

theorem collapseDashGo_eq_self_of_no_dash (l : List Char) :
    ∀ b, (∀ c ∈ l, (c = '-' : Bool) = false) → collapseDashGo l b = l := by
  induction l with
  | nil => intro b _; rfl
  | cons c rest ih =>
    intro b hall
    have hc : (c = '-' : Bool) = false := hall c (List.mem_cons_self _ _)
    rw [collapseDashGo, if_neg (by simpa using hc)]
    rw [ih false (fun x hx => hall x (List.mem_cons_of_mem _ hx))]

theorem collapseDashGo_replicate_a (n : Nat) :
    ∀ (b : Bool) (rest : List Char),
      collapseDashGo (List.replicate (n + 1) 'a' ++ rest) b =
        List.replicate (n + 1) 'a' ++ collapseDashGo rest false := by
  induction n with
  | zero =>
    intro b rest
    simp only [List.replicate, List.nil_append, List.singleton_append]
    rw [collapseDashGo, if_neg (by decide)]
  | succ m ih =>
    intro b rest
    have : List.replicate (m + 2) 'a' = 'a' :: List.replicate (m + 1) 'a' := rfl
    rw [this, List.cons_append, collapseDashGo, if_neg (by decide), ih false rest]
    rfl

theorem subBadGo_eq_self (l : List Char) :
    ∀ b, (∀ c ∈ l, isSlugChar c = true) → subBadGo l b = l := by
  induction l with
  | nil => intro b _; rfl
  | cons c rest ih =>
    intro b hall
    rw [subBadGo, if_pos (hall c (List.mem_cons_self _ _))]
    rw [ih false (fun x hx => hall x (List.mem_cons_of_mem _ hx))]

theorem map_pyToLower_eq_self (l : List Char)
    (h : ∀ c ∈ l, c.toNat < 65 ∨ 90 < c.toNat) : l.map pyToLower = l := by
  induction l with
  | nil => rfl
  | cons c rest ih =>
    have hc := h c (List.mem_cons_self _ _)
    have : pyToLower c = c := by
      unfold pyToLower
      rw [if_neg]
      omega
    rw [List.map_cons, this, ih (fun x hx => h x (List.mem_cons_of_mem _ hx))]

theorem isDigitChar_not_space (c : Char) (h : isDigitChar c = true) :
    pyIsSpace c = false := by
  simp only [isDigitChar, Bool.and_eq_true, decide_eq_true_eq] at h
  simp only [pyIsSpace, Bool.or_eq_false_iff, decide_eq_false_iff_not]
  refine ⟨⟨⟨⟨⟨?_, ?_⟩, ?_⟩, ?_⟩, ?_⟩, ?_⟩ <;>
    (intro he; have := congrArg Char.toNat he; simp at this; omega)

theorem isDigitChar_not_dash (c : Char) (h : isDigitChar c = true) :
    (c = '-' : Bool) = false := by
  simp only [isDigitChar, Bool.and_eq_true, decide_eq_true_eq] at h
  simp only [decide_eq_false_iff_not]
  intro he
  have := congrArg Char.toNat he
  simp at this
  omega

theorem isDigitChar_slug (c : Char) (h : isDigitChar c = true) :
    isSlugChar c = true := by
  simp only [isDigitChar, Bool.and_eq_true, decide_eq_true_eq] at h
  simp only [isSlugChar, Bool.or_eq_true, Bool.and_eq_true, decide_eq_true_eq]
  omega

theorem suffix_chars_facts (i : Nat) :
    ∀ c ∈ List.replicate 40 'a' ++ '-' :: (Nat.repr i).data,
      pyIsSpace c = false ∧ (c.toNat < 65 ∨ 90 < c.toNat) ∧ isSlugChar c = true := by
  intro c hc
  rcases List.mem_append.1 hc with h1 | h1
  · have : c = 'a' := List.eq_of_mem_replicate h1
    subst this
    refine ⟨by decide, by decide, by decide⟩
  · rcases List.mem_cons.1 h1 with h2 | h2
    · subst h2
      refine ⟨by decide, by decide, by decide⟩
    · have hd := reprNat_chars i c h2
      have hn : 48 ≤ c.toNat ∧ c.toNat ≤ 57 := by
        simpa [isDigitChar] using hd
      exact ⟨isDigitChar_not_space c hd, by omega, isDigitChar_slug c hd⟩

theorem stripDashes_longA_suffix (i : Nat) :
    stripDashes (List.replicate 40 'a' ++ '-' :: (Nat.repr i).data) =
      List.replicate 40 'a' ++ '-' :: (Nat.repr i).data := by
  unfold stripDashes stripP rstripP
  set ds := (Nat.repr i).data with hds
  have hfull : List.replicate 40 'a' ++ '-' :: ds =
      'a' :: (List.replicate 39 'a' ++ '-' :: ds) := rfl
  have h1 : (List.replicate 40 'a' ++ '-' :: ds).dropWhile
      (fun c => (c = '-' : Bool)) = List.replicate 40 'a' ++ '-' :: ds := by
    rw [hfull, List.dropWhile_cons]
    simp
  rw [h1]
  have hdne : ds ≠ [] := reprNat_ne_nil i
  cases hrev : ds.reverse with
  | nil => exact absurd (by simpa using hrev) hdne
  | cons dc dr =>
    have hdcmem : dc ∈ ds := by
      have : dc ∈ ds.reverse := hrev ▸ List.mem_cons_self _ _
      exact List.mem_reverse.1 this
    have hdc : isDigitChar dc = true := reprNat_chars i dc hdcmem
    have hrev2 : (List.replicate 40 'a' ++ '-' :: ds).reverse =
        dc :: (dr ++ '-' :: List.replicate 40 'a') := by
      rw [List.reverse_append, List.reverse_cons, List.reverse_replicate, hrev]
      simp
    rw [hrev2, List.dropWhile_cons]
    rw [isDigitChar_not_dash dc hdc]
    simp only [Bool.false_eq_true, if_false]
    rw [← hrev2, List.reverse_reverse]

theorem slugify_longA_suffix (i : Nat) :
    slugify_uid (longA ++ "-" ++ Nat.repr i) = longA := by
  have hdata : (longA ++ "-" ++ Nat.repr i).data =
      List.replicate 40 'a' ++ '-' :: (Nat.repr i).data := by
    rw [String.data_append, String.data_append]
    rfl
  unfold slugify_uid
  rw [hdata]
  dsimp only
  have hfacts := suffix_chars_facts i
  rw [stripP_eq_self _ _ (fun c hc => (hfacts c hc).1)]
  rw [map_pyToLower_eq_self _ (fun c hc => (hfacts c hc).2.1)]
  rw [subBadGo_eq_self _ false (fun c hc => (hfacts c hc).2.2)]
  have h39 : List.replicate 40 'a' = List.replicate (39 + 1) 'a' := rfl
  rw [h39, collapseDashGo_replicate_a 39 false ('-' :: (Nat.repr i).data), ← h39]
  rw [collapseDashGo, if_pos rfl]
  simp only [Bool.false_eq_true, if_false]
  rw [collapseDashGo_eq_self_of_no_dash _ true
    (fun c hc => isDigitChar_not_dash c (reprNat_chars i c hc))]
  rw [stripDashes_longA_suffix i]
  have htake : (List.replicate 40 'a' ++ '-' :: (Nat.repr i).data).take 40 =
      List.replicate 40 'a' := by
    have := List.take_left (List.replicate 40 'a') ('-' :: (Nat.repr i).data)
    rwa [List.length_replicate] at this
  rw [htake]
  rw [if_neg (by decide)]
  rfl

theorem ensure_uid_longA_suffix (i : Nat) :
    ensure_uid (longA ++ "-" ++ Nat.repr i) = longA := by
  unfold ensure_uid
  have hdata : (longA ++ "-" ++ Nat.repr i).data =
      List.replicate 40 'a' ++ '-' :: (Nat.repr i).data := by
    rw [String.data_append, String.data_append]
    rfl
  have hstrip : pyStrip (longA ++ "-" ++ Nat.repr i) = longA ++ "-" ++ Nat.repr i := by
    unfold pyStrip
    rw [hdata, stripP_eq_self _ _ (fun c hc => (suffix_chars_facts i c hc).1)]
    rw [← hdata]
    rfl
  dsimp only
  rw [hstrip]
  have hlen : uidAllowed (longA ++ "-" ++ Nat.repr i) = false := by
    unfold uidAllowed
    rw [hdata]
    have h1 : (List.replicate 40 'a' ++ '-' :: (Nat.repr i).data).length =
        41 + (Nat.repr i).data.length := by
      simp [List.length_append, List.length_replicate]
      omega
    have h2 : ¬ (List.replicate 40 'a' ++ '-' :: (Nat.repr i).data).length ≤ 40 := by
      omega
    simp [h2]
  rw [hlen]
  simp only [Bool.false_eq_true, if_false]
  exact slugify_longA_suffix i

theorem uidLoop_not_mem (used : List String) (base : String) (fuel : Nat)
    (cur : String) (i : Nat) (h : cur ∉ used) :
    uidLoop used base fuel cur i = some cur := by
  unfold uidLoop
  rw [if_neg h]

theorem uidLoop_longA_stuck (fuel : Nat) :
    ∀ i, uidLoop [longA] longA fuel longA i = none := by
  induction fuel with
  | zero =>
    intro i
    unfold uidLoop
    rw [if_pos (List.mem_singleton.2 rfl)]
  | succ f ih =>
    intro i
    unfold uidLoop
    rw [if_pos (List.mem_singleton.2 rfl)]
    rw [ensure_uid_longA_suffix i]
    exact ih (i + 1)

theorem deriveBase_collide (p : String) :
    deriveBaseUid [] p (setKV "id" .null [("uid", .str longA)]) = longA := by
  have h1 : mLookup p [] = none := rfl
  unfold deriveBaseUid
  rw [h1]
  show deriveFromDoc p (setKV "id" .null [("uid", .str longA)]) = longA
  unfold deriveFromDoc
  have h2 : lookupJ "uid" (setKV "id" .null [("uid", JVal.str longA)]) =
      some (.str longA) := by decide
  rw [h2]
  dsimp only
  rw [if_pos (by decide)]
  decide

theorem processAll_collide_stuck (fuel : Nat) :
    processAll [] fuel []
      [("a/d1.json", [("uid", JVal.str longA)]),
       ("a/d2.json", [("uid", JVal.str longA)])] = none := by
  have hpd1 : processDoc [] [] fuel "a/d1.json" [("uid", JVal.str longA)] =
      some (walkEnts false (setKV "uid" (.str longA)
        (setKV "id" .null [("uid", JVal.str longA)])) |> popKV "__inputs", longA) := by
    unfold processDoc
    dsimp only
    rw [deriveBase_collide]
    rw [uidLoop_not_mem _ _ _ _ _ (by simp)]
  have hpd2 : processDoc [] [longA] fuel "a/d2.json" [("uid", JVal.str longA)] =
      none := by
    unfold processDoc
    dsimp only
    rw [deriveBase_collide]
    rw [uidLoop_longA_stuck fuel 2]
  unfold processAll
  rw [hpd1]
  dsimp only
  unfold processAll
  rw [hpd2]

theorem mainRun_collide_stuck (fuel : Nat) :
    mainRun collideInput fuel = .fuelOut := by
  have hm : loadManifest (findManifest
      [("a/d1.json", FileContent.val (.obj [("uid", JVal.str longA)])),
       ("a/d2.json", FileContent.val (.obj [("uid", JVal.str longA)]))]) =
      .ok [] := rfl
  have hd : loadDocs
      [("a/d1.json", FileContent.val (.obj [("uid", JVal.str longA)])),
       ("a/d2.json", FileContent.val (.obj [("uid", JVal.str longA)]))] =
      .ok [("a/d1.json", [("uid", JVal.str longA)]),
           ("a/d2.json", [("uid", JVal.str longA)])] := rfl
  unfold mainRun collideInput
  dsimp only
  rw [hm, hd]
  dsimp only
  rw [processAll_collide_stuck fuel]
  rfl

/-!  Uid facts through the per-document pipeline. -/

theorem lookupJ_walkEnts (k : String) (hk : k ≠ "datasource") :
    ∀ (kvs : Kvs) (b : Bool),
      lookupJ k (walkEnts b kvs) = (lookupJ k kvs).map walkVal := by
  intro kvs
  induction kvs with
  | nil => intro b; rfl
  | cons e rest ih =>
    intro b
    obtain ⟨k0, v0⟩ := e
    by_cases h0 : k0 = "datasource" ∧ ¬b
    · have hne : k0 ≠ k := fun he => hk (he ▸ h0.1)
      have hne' : ¬ k0 = k := hne
      rw [walkEnts, if_pos h0]
      simp only [lookupJ, if_neg hne']
      exact ih true
    · rw [walkEnts, if_neg h0]
      simp only [lookupJ]
      by_cases h1 : k0 = k
      · simp [h1]
      · simp only [if_neg h1]
        exact ih b

theorem uidLoop_some_not_mem (used : List String) (base : String) :
    ∀ (fuel : Nat) (cur : String) (i : Nat) (u : String),
      uidLoop used base fuel cur i = some u → u ∉ used := by
  intro fuel
  induction fuel with
  | zero =>
    intro cur i u h
    unfold uidLoop at h
    by_cases hc : cur ∈ used
    · rw [if_pos hc] at h; exact absurd h (by simp)
    · rw [if_neg hc] at h
      injection h with h
      exact h ▸ hc
  | succ f ih =>
    intro cur i u h
    unfold uidLoop at h
    by_cases hc : cur ∈ used
    · rw [if_pos hc] at h
      exact ih _ _ u h
    · rw [if_neg hc] at h
      injection h with h
      exact h ▸ hc

theorem uidLoop_some_allowed (used : List String) (base : String) :
    ∀ (fuel : Nat) (cur : String) (i : Nat) (u : String),
      uidAllowed cur = true → uidLoop used base fuel cur i = some u →
        uidAllowed u = true := by
  intro fuel
  induction fuel with
  | zero =>
    intro cur i u hcur h
    unfold uidLoop at h
    by_cases hc : cur ∈ used
    · rw [if_pos hc] at h; exact absurd h (by simp)
    · rw [if_neg hc] at h
      injection h with h
      exact h ▸ hcur
  | succ f ih =>
    intro cur i u hcur h
    unfold uidLoop at h
    by_cases hc : cur ∈ used
    · rw [if_pos hc] at h
      exact ih _ _ u (ensure_uid_allowed _) h
    · rw [if_neg hc] at h
      injection h with h
      exact h ▸ hcur

theorem make_default_allowed (p : String) :
    uidAllowed (make_default_uid_for_file p) = true := by
  unfold make_default_uid_for_file
  exact ensure_uid_allowed _

theorem deriveFromDoc_allowed (p : String) (dash : Kvs) :
    uidAllowed (deriveFromDoc p dash) = true := by
  unfold deriveFromDoc
  split
  · split
    · exact ensure_uid_allowed _
    · exact make_default_allowed p
  · exact make_default_allowed p

theorem deriveBaseUid_allowed (mmap : List (String × Option String)) (p : String)
    (dash : Kvs) : uidAllowed (deriveBaseUid mmap p dash) = true := by
  unfold deriveBaseUid
  split
  · split
    · exact ensure_uid_allowed _
    · exact deriveFromDoc_allowed p dash
  · exact deriveFromDoc_allowed p dash

theorem processDoc_uid_facts (mmap : List (String × Option String))
    (used : List String) (fuel : Nat) (p : String) (dash : Kvs) (d4 : Kvs)
    (u : String) (h : processDoc mmap used fuel p dash = some (d4, u)) :
    lookupJ "uid" d4 = some (.str u) ∧ u ∉ used ∧ uidAllowed u = true := by
  unfold processDoc at h
  dsimp only at h
  cases hu : uidLoop used (deriveBaseUid mmap p (setKV "id" .null dash)) fuel
      (deriveBaseUid mmap p (setKV "id" .null dash)) 2 with
  | none => rw [hu] at h; exact absurd h (by simp)
  | some u' =>
    rw [hu] at h
    dsimp only at h
    injection h with h
    have hd4 : popKV "__inputs" (walkEnts false (setKV "uid" (.str u')
        (setKV "id" .null dash))) = d4 := congrArg Prod.fst h
    have huu : u' = u := congrArg Prod.snd h
    subst huu
    refine ⟨?_, uidLoop_some_not_mem _ _ _ _ _ _ hu,
      uidLoop_some_allowed _ _ _ _ _ _ (deriveBaseUid_allowed _ _ _) hu⟩
    rw [← hd4]
    rw [lookupJ_popKV_ne _ _ _ (by decide)]
    rw [lookupJ_walkEnts _ (by decide)]
    rw [lookupJ_setKV_self]
    rfl

theorem processAll_uid_facts (mmap : List (String × Option String)) (fuel : Nat) :
    ∀ (docs : List (String × Kvs)) (used : List String)
      (docs2 : List (String × Kvs)) (angs : List String),
      processAll mmap fuel used docs = some (docs2, angs) →
      (∀ d ∈ docs2, ∃ u, lookupJ "uid" d.2 = some (.str u) ∧
        uidAllowed u = true ∧ u ∉ used) ∧
      docs2.Pairwise (fun d1 d2 => lookupJ "uid" d1.2 ≠ lookupJ "uid" d2.2) := by
  intro docs
  induction docs with
  | nil =>
    intro used docs2 angs h
    unfold processAll at h
    injection h with h
    have h2 : docs2 = [] := (congrArg Prod.fst h).symm
    subst h2
    refine ⟨?_, .nil⟩
    intro d hd
    cases hd
  | cons d rest ih =>
    intro used docs2 angs h
    obtain ⟨p, dash⟩ := d
    unfold processAll at h
    cases hpd : processDoc mmap used fuel p dash with
    | none => rw [hpd] at h; exact absurd h (by simp)
    | some pr =>
      obtain ⟨dash4, u⟩ := pr
      rw [hpd] at h
      dsimp only at h
      cases hpa : processAll mmap fuel (u :: used) rest with
      | none => rw [hpa] at h; exact absurd h (by simp)
      | some pr2 =>
        obtain ⟨docs', angs'⟩ := pr2
        rw [hpa] at h
        dsimp only at h
        injection h with h
        have h2 : docs2 = (p, dash4) :: docs' := (congrArg Prod.fst h).symm
        subst h2
        obtain ⟨hu4, hnm, hal⟩ := processDoc_uid_facts mmap used fuel p dash dash4 u hpd
        obtain ⟨htail, hpw⟩ := ih (u :: used) docs' angs' hpa
        constructor
        · intro d hd
          rcases List.mem_cons.1 hd with h3 | h3
          · subst h3
            exact ⟨u, hu4, hal, hnm⟩
          · obtain ⟨u', h4, h5, h6⟩ := htail d h3
            exact ⟨u', h4, h5, fun hm => h6 (List.mem_cons_of_mem _ hm)⟩
        · refine List.Pairwise.cons ?_ hpw
          intro d2 hd2
          obtain ⟨u', h4, h5, h6⟩ := htail d2 hd2
          rw [hu4, h4]
          intro he
          injection he with he
          injection he with he
          exact h6 (he ▸ List.mem_cons_self _ _)

/-!  Shape of the title rewrite and preservation through dedup. -/

theorem titleLoop_shape (usedT : List String) (t u : String) :
    ∀ (fuel : Nat) (cur : String) (i : Nat) (nt : String),
      titleLoop usedT t u fuel cur i = some nt →
      nt ∉ usedT ∧ (nt = cur ∨ ∃ j, i ≤ j ∧
        nt = t ++ " (" ++ u ++ "-" ++ Nat.repr j ++ ")") := by
  intro fuel
  induction fuel with
  | zero =>
    intro cur i nt h
    unfold titleLoop at h
    by_cases hc : cur ∈ usedT
    · rw [if_pos hc] at h; exact absurd h (by simp)
    · rw [if_neg hc] at h
      injection h with h
      subst h
      exact ⟨hc, Or.inl rfl⟩
  | succ f ih =>
    intro cur i nt h
    unfold titleLoop at h
    by_cases hc : cur ∈ usedT
    · rw [if_pos hc] at h
      obtain ⟨h1, h2⟩ := ih _ _ nt h
      refine ⟨h1, Or.inr ?_⟩
      rcases h2 with h2 | ⟨j, hj, h2⟩
      · exact ⟨i, le_refl i, h2⟩
      · exact ⟨j, by omega, h2⟩
    · rw [if_neg hc] at h
      injection h with h
      subst h
      exact ⟨hc, Or.inl rfl⟩

theorem dedupGo_forall₂ (fuel : Nat) :
    ∀ (docs : List (String × Kvs)) (seen : List (String × List String))
      (docs' : List (String × Kvs)) (seen' : List (String × List String)),
      dedupGo fuel seen docs = some (docs', seen') →
      List.Forall₂ dedupRel docs docs' := by
  intro docs
  induction docs with
  | nil =>
    intro seen docs' seen' h
    unfold dedupGo at h
    injection h with h
    have h2 : docs' = [] := (congrArg Prod.fst h).symm
    subst h2
    exact .nil
  | cons d rest ih =>
    intro seen docs' seen' h
    obtain ⟨p, dash⟩ := d
    unfold dedupGo at h
    dsimp only at h
    by_cases hc : derivedTitle dash ∈ seenOf (parentDir p) seen
    · rw [if_pos hc] at h
      cases htl : titleLoop (seenOf (parentDir p) seen) (derivedTitle dash)
          (derivedUid dash) fuel
          (derivedTitle dash ++ " (" ++ derivedUid dash ++ ")") 2 with
      | none => rw [htl] at h; exact absurd h (by simp)
      | some nt =>
        rw [htl] at h
        dsimp only at h
        cases hgo : dedupGo fuel (seenAdd (parentDir p) nt seen) rest with
        | none => rw [hgo] at h; exact absurd h (by simp)
        | some pr =>
          obtain ⟨docs2, seen2⟩ := pr
          rw [hgo] at h
          dsimp only at h
          injection h with h
          have h2 : docs' = (p, setKV "title" (.str nt) dash) :: docs2 :=
            (congrArg Prod.fst h).symm
          subst h2
          refine .cons ⟨rfl, Or.inr ⟨nt, rfl, ?_⟩⟩ (ih _ _ _ hgo)
          obtain ⟨_, hsh⟩ := titleLoop_shape _ _ _ _ _ _ _ htl
          rcases hsh with hsh | ⟨j, hj, hsh⟩
          · exact Or.inl hsh
          · exact Or.inr ⟨j, hj, hsh⟩
    · rw [if_neg hc] at h
      cases hgo : dedupGo fuel (seenAdd (parentDir p) (derivedTitle dash) seen)
          rest with
      | none => rw [hgo] at h; exact absurd h (by simp)
      | some pr =>
        obtain ⟨docs2, seen2⟩ := pr
        rw [hgo] at h
        dsimp only at h
        injection h with h
        have h2 : docs' = (p, dash) :: docs2 := (congrArg Prod.fst h).symm
        subst h2
        exact .cons ⟨rfl, Or.inl rfl⟩ (ih _ _ _ hgo)

theorem forall₂_mem_right {α β : Type} (R : α → β → Prop) :
    ∀ (l : List α) (l' : List β), List.Forall₂ R l l' →
      ∀ b ∈ l', ∃ a ∈ l, R a b := by
  intro l l' h
  induction h with
  | nil => intro b hb; cases hb
  | cons hr hrest ih =>
    intro b hb
    rcases List.mem_cons.1 hb with h1 | h1
    · exact ⟨_, List.mem_cons_self _ _, h1 ▸ hr⟩
    · obtain ⟨a, ha, hab⟩ := ih b h1
      exact ⟨a, List.mem_cons_of_mem _ ha, hab⟩

theorem pairwise_forall₂ {α β : Type} (R : α → β → Prop) (P : α → α → Prop)
    (Q : β → β → Prop)
    (hPQ : ∀ a b a' b', R a a' → R b b' → P a b → Q a' b') :
    ∀ (l : List α) (l' : List β), List.Forall₂ R l l' →
      l.Pairwise P → l'.Pairwise Q := by
  intro l l' h
  induction h with
  | nil => intro _; exact .nil
  | cons hr hrest ih =>
    intro hp
    cases hp with
    | cons hhead htail =>
      refine .cons ?_ (ih htail)
      intro b' hb'
      obtain ⟨b, hb, hrb⟩ := forall₂_mem_right _ _ _ hrest b' hb'
      exact hPQ _ _ _ _ hr hrb (hhead b hb)

theorem dedupRel_uid (d d' : String × Kvs) (h : dedupRel d d') :
    lookupJ "uid" d'.2 = lookupJ "uid" d.2 := by
  rcases h.2 with h2 | ⟨nt, h2, _⟩
  · rw [h2]
  · rw [h2, lookupJ_setKV_ne _ _ _ _ (by decide)]

theorem mainRun_ok_elim (inp : RunInput) (fuel : Nat)
    (writes : List (String × Kvs)) (angs : List String) (bad : Nat)
    (h : mainRun inp fuel = .ok writes angs bad) :
    ∃ mmap docs docs2 angs2 seen2,
      loadManifest (findManifest inp.files) = .ok mmap ∧
      loadDocs inp.files = .ok docs ∧
      processAll mmap fuel [] docs = some (docs2, angs2) ∧
      dedupGo fuel [] docs2 = some (writes, seen2) := by
  unfold mainRun at h
  by_cases hr : inp.rootExists
  · rw [if_neg (by simp [hr])] at h
    cases hm : loadManifest (findManifest inp.files) with
    | error e => rw [hm] at h; exact absurd h (by simp)
    | ok mmap =>
      rw [hm] at h
      dsimp only at h
      cases hd : loadDocs inp.files with
      | error c => rw [hd] at h; exact absurd h (by simp)
      | ok docs =>
        rw [hd] at h
        dsimp only at h
        cases hpa : processAll mmap fuel [] docs with
        | none => rw [hpa] at h; exact absurd h (by simp)
        | some pr =>
          obtain ⟨docs2, angs2⟩ := pr
          rw [hpa] at h
          dsimp only at h
          cases hdg : dedupGo fuel [] docs2 with
          | none => rw [hdg] at h; exact absurd h (by simp)
          | some pr2 =>
            obtain ⟨docs3, seen2⟩ := pr2
            rw [hdg] at h
            dsimp only at h
            injection h with h1 h2 h3
            subst h1
            exact ⟨mmap, docs, docs2, angs2, seen2, rfl, rfl, hpa, hdg⟩
  · rw [if_pos (by simp [hr])] at h
    exact absurd h (by simp)

/-!  Stripped-string facts for the title invariant. -/

theorem dropWhile_head_false (p : Char → Bool) :
    ∀ (l : List Char) (x : Char) (xs : List Char),
      l.dropWhile p = x :: xs → p x = false := by
  intro l
  induction l with
  | nil => intro x xs h; cases h
  | cons c rest ih =>
    intro x xs h
    rw [List.dropWhile_cons] at h
    by_cases hc : p c
    · rw [if_pos hc] at h
      exact ih x xs h
    · rw [if_neg hc] at h
      injection h with h1 _
      subst h1
      simpa using hc

theorem rstripP_prefix (p : Char → Bool) (l : List Char) :
    (rstripP p l).IsPrefix l := by
  have h := (List.dropWhile_suffix (l := l.reverse) p).reverse
  rw [List.reverse_reverse] at h
  exact h

theorem stripP_head_false (p : Char → Bool) (l : List Char) (x : Char)
    (xs : List Char) (h : stripP p l = x :: xs) : p x = false := by
  obtain ⟨t, ht⟩ := rstripP_prefix p (l.dropWhile p)
  have h2 : l.dropWhile p = x :: (xs ++ t) := by
    rw [← ht]
    unfold stripP at h
    rw [h]
    simp
  exact dropWhile_head_false p l x (xs ++ t) h2

theorem dropWhile_dropWhile (p : Char → Bool) (l : List Char) :
    (l.dropWhile p).dropWhile p = l.dropWhile p := by
  cases hd : l.dropWhile p with
  | nil => rfl
  | cons x xs =>
    rw [List.dropWhile_cons, if_neg]
    simp [dropWhile_head_false p l x xs hd]

theorem rstripP_rstripP (p : Char → Bool) (l : List Char) :
    rstripP p (rstripP p l) = rstripP p l := by
  unfold rstripP
  rw [List.reverse_reverse, dropWhile_dropWhile]

theorem stripP_idem (p : Char → Bool) (l : List Char) :
    stripP p (stripP p l) = stripP p l := by
  have h1 : (stripP p l).dropWhile p = stripP p l := by
    cases hd : stripP p l with
    | nil => rfl
    | cons x xs =>
      rw [List.dropWhile_cons, if_neg]
      simp [stripP_head_false p l x xs hd]
  show rstripP p ((stripP p l).dropWhile p) = stripP p l
  rw [h1]
  show rstripP p (rstripP p (l.dropWhile p)) = rstripP p (l.dropWhile p)
  exact rstripP_rstripP p _

theorem pyStrip_idem (s : String) : pyStrip (pyStrip s) = pyStrip s := by
  show (stripP pyIsSpace (stripP pyIsSpace s.data).asString.data).asString =
    (stripP pyIsSpace s.data).asString
  have h : (List.asString (stripP pyIsSpace s.data)).data =
      stripP pyIsSpace s.data := rfl
  rw [h, stripP_idem]

theorem derivedTitle_fixed (dash : Kvs) :
    pyStrip (derivedTitle dash) = derivedTitle dash ∧ derivedTitle dash ≠ "" := by
  unfold derivedTitle
  dsimp only
  split
  · exact ⟨by decide, by decide⟩
  · next hne =>
    exact ⟨pyStrip_idem _, hne⟩

theorem derivedUid_fixed (dash : Kvs) :
    pyStrip (derivedUid dash) = derivedUid dash ∧ derivedUid dash ≠ "" := by
  unfold derivedUid
  dsimp only
  split
  · exact ⟨by decide, by decide⟩
  · next hne =>
    exact ⟨pyStrip_idem _, hne⟩

theorem string_data_ne_nil (s : String) (h : s ≠ "") : s.data ≠ [] := by
  intro hd
  apply h
  cases s with
  | mk d =>
    simp only at hd
    rw [hd]

theorem stripP_eq_self_sandwich (p : Char → Bool) (x z : Char) (mid : List Char)
    (hx : p x = false) (hz : p z = false) :
    stripP p (x :: (mid ++ [z])) = x :: (mid ++ [z]) := by
  unfold stripP rstripP
  rw [List.dropWhile_cons, hx]
  simp only [Bool.false_eq_true, if_false]
  have hrev : (x :: (mid ++ [z])).reverse = z :: (mid.reverse ++ [x]) := by
    simp
  rw [hrev, List.dropWhile_cons, hz]
  simp only [Bool.false_eq_true, if_false]
  rw [← hrev, List.reverse_reverse]

theorem composite_fixed (T mid : String) (hT : pyStrip T = T) (hTne : T ≠ "") :
    pyStrip (T ++ " (" ++ mid ++ ")") = T ++ " (" ++ mid ++ ")" ∧
      (T ++ " (" ++ mid ++ ")") ≠ "" := by
  have hTd : stripP pyIsSpace T.data = T.data := congrArg String.data hT
  have hTdne : T.data ≠ [] := string_data_ne_nil T hTne
  cases hx : T.data with
  | nil => exact absurd hx hTdne
  | cons x xs =>
    have hxsp : pyIsSpace x = false :=
      stripP_head_false _ _ _ _ (hx ▸ hTd)
    have hdata : (T ++ " (" ++ mid ++ ")").data =
        x :: ((xs ++ ' ' :: '(' :: mid.data) ++ [')']) := by
      rw [String.data_append, String.data_append, String.data_append, hx]
      simp
    constructor
    · show (stripP pyIsSpace (T ++ " (" ++ mid ++ ")").data).asString = _
      rw [hdata]
      rw [stripP_eq_self_sandwich pyIsSpace x ')' _ hxsp (by decide)]
      rw [← hdata]
      rfl
    · intro he
      have hcd := congrArg String.data he
      rw [hdata] at hcd
      simp at hcd

theorem derivedTitle_setTitle (dash : Kvs) (nt : String) (h1 : pyStrip nt = nt)
    (h2 : nt ≠ "") : derivedTitle (setKV "title" (.str nt) dash) = nt := by
  unfold derivedTitle
  rw [lookupJ_setKV_self]
  dsimp only
  have hf : jFalsy (JVal.str nt) = false := by
    simp [jFalsy, h2]
  rw [hf]
  show (if pyStrip nt = "" then "Dashboard" else pyStrip nt) = nt
  rw [h1, if_neg h2]

theorem seenOf_seenAdd (f fkey t : String) :
    ∀ (seen : List (String × List String)),
      seenOf f (seenAdd fkey t seen) =
        if fkey = f then t :: seenOf f seen else seenOf f seen := by
  intro seen
  induction seen with
  | nil =>
    show seenOf f [(fkey, [t])] = _
    by_cases h : fkey = f
    · simp [seenOf, h]
    · simp [seenOf, h]
  | cons e rest ih =>
    obtain ⟨k, ts⟩ := e
    by_cases hk : k = fkey
    · subst hk
      rw [seenAdd, if_pos rfl]
      by_cases hf : k = f
      · subst hf
        simp [seenOf]
      · simp [seenOf, hf]
    · rw [seenAdd, if_neg hk]
      by_cases hf : k = f
      · subst hf
        have hne : ¬ fkey = k := fun he => hk he.symm
        simp [seenOf, hne]
      · simp only [seenOf, if_neg hf]
        exact ih

theorem not_mem_seenAdd (f fkey t x : String) (seen : List (String × List String))
    (h : x ∉ seenOf f (seenAdd fkey t seen)) :
    x ∉ seenOf f seen ∧ (fkey = f → x ≠ t) := by
  rw [seenOf_seenAdd] at h
  by_cases hf : fkey = f
  · rw [if_pos hf] at h
    constructor
    · intro hm; exact h (List.mem_cons_of_mem _ hm)
    · intro _ he; exact h (he ▸ List.mem_cons_self _ _)
  · rw [if_neg hf] at h
    exact ⟨h, fun he => absurd he hf⟩

theorem composite_shape_fixed (dash : Kvs) (nt : String)
    (hshape : nt = derivedTitle dash ++ " (" ++ derivedUid dash ++ ")" ∨
      ∃ j, 2 ≤ j ∧ nt = derivedTitle dash ++ " (" ++ derivedUid dash ++ "-" ++
        Nat.repr j ++ ")") :
    pyStrip nt = nt ∧ nt ≠ "" := by
  obtain ⟨hTfix, hTne⟩ := derivedTitle_fixed dash
  rcases hshape with hs | ⟨j, _, hs⟩
  · rw [hs]
    exact composite_fixed _ _ hTfix hTne
  · rw [hs]
    have hassoc : derivedTitle dash ++ " (" ++ derivedUid dash ++ "-" ++
        Nat.repr j ++ ")" = derivedTitle dash ++ " (" ++
        (derivedUid dash ++ "-" ++ Nat.repr j) ++ ")" := by
      simp [String.append_assoc]
    rw [hassoc]
    exact composite_fixed _ _ hTfix hTne

theorem dedupGo_keys (fuel : Nat) :
    ∀ (docs : List (String × Kvs)) (seen : List (String × List String))
      (docs' : List (String × Kvs)) (seen' : List (String × List String)),
      dedupGo fuel seen docs = some (docs', seen') →
      (∀ d' ∈ docs', derivedTitle d'.2 ∉ seenOf (parentDir d'.1) seen) ∧
      docs'.Pairwise (fun d1 d2 => parentDir d1.1 = parentDir d2.1 →
        derivedTitle d1.2 ≠ derivedTitle d2.2) := by
  intro docs
  induction docs with
  | nil =>
    intro seen docs' seen' h
    unfold dedupGo at h
    injection h with h
    have h2 : docs' = [] := (congrArg Prod.fst h).symm
    subst h2
    refine ⟨?_, .nil⟩
    intro d hd
    cases hd
  | cons d rest ih =>
    intro seen docs' seen' h
    obtain ⟨p, dash⟩ := d
    unfold dedupGo at h
    dsimp only at h
    by_cases hc : derivedTitle dash ∈ seenOf (parentDir p) seen
    · rw [if_pos hc] at h
      cases htl : titleLoop (seenOf (parentDir p) seen) (derivedTitle dash)
          (derivedUid dash) fuel
          (derivedTitle dash ++ " (" ++ derivedUid dash ++ ")") 2 with
      | none => rw [htl] at h; exact absurd h (by simp)
      | some nt =>
        rw [htl] at h
        dsimp only at h
        cases hgo : dedupGo fuel (seenAdd (parentDir p) nt seen) rest with
        | none => rw [hgo] at h; exact absurd h (by simp)
        | some pr =>
          obtain ⟨docs2, seen2⟩ := pr
          rw [hgo] at h
          dsimp only at h
          injection h with h
          have h2 : docs' = (p, setKV "title" (.str nt) dash) :: docs2 :=
            (congrArg Prod.fst h).symm
          subst h2
          obtain ⟨hnotin, hshape⟩ := titleLoop_shape _ _ _ _ _ _ _ htl
          have hshape2 : nt = derivedTitle dash ++ " (" ++ derivedUid dash ++
              ")" ∨ ∃ j, 2 ≤ j ∧ nt = derivedTitle dash ++ " (" ++
              derivedUid dash ++ "-" ++ Nat.repr j ++ ")" := by
            rcases hshape with hs | ⟨j, hj, hs⟩
            · exact Or.inl hs
            · exact Or.inr ⟨j, hj, hs⟩
          obtain ⟨hfix, hne⟩ := composite_shape_fixed dash nt hshape2
          have hkey : derivedTitle (setKV "title" (.str nt) dash) = nt :=
            derivedTitle_setTitle dash nt hfix hne
          obtain ⟨ihN, ihP⟩ := ih (seenAdd (parentDir p) nt seen) docs2 seen2 hgo
          constructor
          · intro d' hd'
            rcases List.mem_cons.1 hd' with h3 | h3
            · subst h3
              dsimp only
              rw [hkey]
              exact hnotin
            · exact (not_mem_seenAdd _ _ _ _ _ (ihN d' h3)).1
          · refine List.Pairwise.cons ?_ ihP
            intro d2 hd2 hfold
            dsimp only at hfold ⊢
            rw [hkey]
            have h4 := (not_mem_seenAdd _ _ _ _ _ (ihN d2 hd2)).2 hfold
            exact fun he => h4 he.symm
    · rw [if_neg hc] at h
      cases hgo : dedupGo fuel
          (seenAdd (parentDir p) (derivedTitle dash) seen) rest with
      | none => rw [hgo] at h; exact absurd h (by simp)
      | some pr =>
        obtain ⟨docs2, seen2⟩ := pr
        rw [hgo] at h
        dsimp only at h
        injection h with h
        have h2 : docs' = (p, dash) :: docs2 := (congrArg Prod.fst h).symm
        subst h2
        obtain ⟨ihN, ihP⟩ := ih (seenAdd (parentDir p) (derivedTitle dash) seen)
          docs2 seen2 hgo
        constructor
        · intro d' hd'
          rcases List.mem_cons.1 hd' with h3 | h3
          · subst h3
            exact hc
          · exact (not_mem_seenAdd _ _ _ _ _ (ihN d' h3)).1
        · refine List.Pairwise.cons ?_ ihP
          intro d2 hd2 hfold
          dsimp only at hfold ⊢
          have h4 := (not_mem_seenAdd _ _ _ _ _ (ihN d2 hd2)).2 hfold
          exact fun he => h4 he.symm

/-!  Preservation of untouched fields through the pipeline. -/

theorem processDoc_preserves (mmap : List (String × Option String))
    (used : List String) (fuel : Nat) (p : String) (dash d4 : Kvs) (u : String)
    (h : processDoc mmap used fuel p dash = some (d4, u)) (k : String)
    (hk1 : k ≠ "id") (hk2 : k ≠ "uid") (hk3 : k ≠ "__inputs")
    (hk4 : k ≠ "datasource") :
    lookupJ k d4 = (lookupJ k dash).map walkVal := by
  unfold processDoc at h
  dsimp only at h
  cases hu : uidLoop used (deriveBaseUid mmap p (setKV "id" .null dash)) fuel
      (deriveBaseUid mmap p (setKV "id" .null dash)) 2 with
  | none => rw [hu] at h; exact absurd h (by simp)
  | some u' =>
    rw [hu] at h
    dsimp only at h
    injection h with h
    have hd4 : popKV "__inputs" (walkEnts false (setKV "uid" (.str u')
        (setKV "id" .null dash))) = d4 := congrArg Prod.fst h
    rw [← hd4]
    rw [lookupJ_popKV_ne _ _ _ hk3]
    rw [lookupJ_walkEnts _ hk4]
    rw [lookupJ_setKV_ne _ _ _ _ hk2, lookupJ_setKV_ne _ _ _ _ hk1]

theorem processAll_forall₂ (mmap : List (String × Option String)) (fuel : Nat) :
    ∀ (docs : List (String × Kvs)) (used : List String)
      (docs2 : List (String × Kvs)) (angs : List String),
      processAll mmap fuel used docs = some (docs2, angs) →
      List.Forall₂ (fun d d2 => d2.1 = d.1 ∧
        ∀ k, k ≠ "id" → k ≠ "uid" → k ≠ "__inputs" → k ≠ "datasource" →
          lookupJ k d2.2 = (lookupJ k d.2).map walkVal) docs docs2 := by
  intro docs
  induction docs with
  | nil =>
    intro used docs2 angs h
    unfold processAll at h
    injection h with h
    have h2 : docs2 = [] := (congrArg Prod.fst h).symm
    subst h2
    exact .nil
  | cons d rest ih =>
    intro used docs2 angs h
    obtain ⟨p, dash⟩ := d
    unfold processAll at h
    cases hpd : processDoc mmap used fuel p dash with
    | none => rw [hpd] at h; exact absurd h (by simp)
    | some pr =>
      obtain ⟨dash4, u⟩ := pr
      rw [hpd] at h
      dsimp only at h
      cases hpa : processAll mmap fuel (u :: used) rest with
      | none => rw [hpa] at h; exact absurd h (by simp)
      | some pr2 =>
        obtain ⟨docs', angs'⟩ := pr2
        rw [hpa] at h
        dsimp only at h
        injection h with h
        have h2 : docs2 = (p, dash4) :: docs' := (congrArg Prod.fst h).symm
        subst h2
        refine .cons ⟨rfl, ?_⟩ (ih _ _ _ hpa)
        intro k hk1 hk2 hk3 hk4
        exact processDoc_preserves mmap used fuel p dash dash4 u hpd k hk1 hk2 hk3 hk4

theorem dedupRel_lookup (k : String) (hk : k ≠ "title") (d d' : String × Kvs)
    (h : dedupRel d d') : lookupJ k d'.2 = lookupJ k d.2 := by
  rcases h.2 with h2 | ⟨nt, h2, _⟩
  · rw [h2]
  · rw [h2, lookupJ_setKV_ne _ _ _ _ hk]

theorem forall₂_comp {α β γ : Type} (R : α → β → Prop) (S : β → γ → Prop)
    (T : α → γ → Prop) (hcomp : ∀ a b c, R a b → S b c → T a c) :
    ∀ (l1 : List α) (l2 : List β) (l3 : List γ),
      List.Forall₂ R l1 l2 → List.Forall₂ S l2 l3 → List.Forall₂ T l1 l3 := by
  intro l1 l2 l3 h1
  induction h1 generalizing l3 with
  | nil =>
    intro h2
    cases h2
    exact .nil
  | cons hr hrest ih =>
    intro h2
    cases h2 with
    | cons hs hsrest =>
      exact .cons (hcomp _ _ _ hr hs) (ih _ hsrest)

/-!  Early-exit behavior of the loading loop. -/

theorem loadDocs_error_of_bad (files : List (String × FileContent))
    (hbad : ∃ e ∈ files, e.2 = FileContent.invalid ∨
      ∃ v, e.2 = FileContent.val v ∧ ∀ kvs, v ≠ JVal.obj kvs) :
    loadDocs files = .error 3 := by
  induction files with
  | nil =>
    obtain ⟨e, he, _⟩ := hbad
    cases he
  | cons f rest ih =>
    obtain ⟨p, c⟩ := f
    cases c with
    | invalid => rfl
    | val v =>
      cases v with
      | obj kvs =>
        have hrest : ∃ e ∈ rest, e.2 = FileContent.invalid ∨
            ∃ v, e.2 = FileContent.val v ∧ ∀ kvs, v ≠ JVal.obj kvs := by
          obtain ⟨e, he, hb⟩ := hbad
          rcases List.mem_cons.1 he with h1 | h1
          · subst h1
            rcases hb with hb | ⟨v', hv', hne⟩
            · cases hb
            · exfalso
              injection hv' with hv'
              exact hne kvs hv'.symm
          · exact ⟨e, h1, hb⟩
        show (loadDocs rest).map (fun ds => (p, kvs) :: ds) = .error 3
        rw [ih hrest]
        rfl
      | null => rfl
      | bool b => rfl
      | num n => rfl
      | str s => rfl
      | arr xs => rfl

/-!  Claim theorems. -/

/-- C1: the claim states the driver's enumeration excludes `manifest.json` and
dotfiles and never rewrites the manifest.  The code's `iter_json_files` has no
such exclusion: on a root containing a well-formed `manifest.json`, the run
loads the manifest as a dashboard document, nulls its `id`, assigns it the
slug uid `"manifest"`, and writes it back — contradicting the claim. -/
theorem claim_c1_manifest_is_processed :
    mainRun ⟨true, [("manifest.json", .val (.obj [("dashboards", .arr [])])),
        ("grafana/x.json", .val (.obj [("uid", .str "keepme1"),
          ("title", .str "T")]))]⟩ 9 =
      .ok [("manifest.json",
              [("dashboards", .arr []), ("id", .null), ("uid", .str "manifest")]),
           ("grafana/x.json",
              [("uid", .str "keepme1"), ("title", .str "T"), ("id", .null)])]
        [] 0 ∧
    lookupJ "uid" [("dashboards", JVal.arr []), ("id", JVal.null),
      ("uid", JVal.str "manifest")] = some (.str "manifest") ∧
    lookupJ "id" [("dashboards", JVal.arr []), ("id", JVal.null),
      ("uid", JVal.str "manifest")] = some .null :=
  ⟨rfl, rfl, rfl⟩

/-- C2: whenever a run completes, the uid values of the written documents are
pairwise distinct across the whole dashboards root, and every written uid is a
non-empty string of at most 40 characters over letters, digits, underscore and
hyphen (`uidAllowed`). -/
theorem claim_c2_uid_unique_and_valid (inp : RunInput) (fuel : Nat)
    (writes : List (String × Kvs)) (angs : List String) (bad : Nat)
    (h : mainRun inp fuel = .ok writes angs bad) :
    writes.Pairwise (fun w1 w2 => lookupJ "uid" w1.2 ≠ lookupJ "uid" w2.2) ∧
    ∀ w ∈ writes, ∃ u, lookupJ "uid" w.2 = some (.str u) ∧
      uidAllowed u = true := by
  obtain ⟨mmap, docs, docs2, angs2, seen2, hm, hd, hpa, hdg⟩ :=
    mainRun_ok_elim inp fuel writes angs bad h
  obtain ⟨hmem, hpw⟩ := processAll_uid_facts mmap fuel docs [] docs2 angs2 hpa
  have hf2 := dedupGo_forall₂ fuel docs2 [] writes seen2 hdg
  constructor
  · refine pairwise_forall₂ dedupRel _ _ ?_ docs2 writes hf2 hpw
    intro a b a' b' ha hb hP
    rw [dedupRel_uid _ _ ha, dedupRel_uid _ _ hb]
    exact hP
  · intro w hw
    obtain ⟨d, hdmem, hrel⟩ := forall₂_mem_right _ _ _ hf2 w hw
    obtain ⟨u, hu, hal, _⟩ := hmem d hdmem
    exact ⟨u, by rw [dedupRel_uid _ _ hrel, hu], hal⟩

/-- Witness for C2 at a concrete run in which two documents collide on uid
`"abc"` and the second is resuffixed to `"abc-2"`. -/
theorem claim_c2_witness :
    ([("a/d1.json", ([("uid", JVal.str "abc"), ("id", JVal.null)] : Kvs)),
      ("a/d2.json", [("uid", JVal.str "abc-2"), ("id", JVal.null),
        ("title", JVal.str "Dashboard (abc-2)")])] :
      List (String × Kvs)).Pairwise
        (fun w1 w2 => lookupJ "uid" w1.2 ≠ lookupJ "uid" w2.2) ∧
    ∀ w ∈ ([("a/d1.json", ([("uid", JVal.str "abc"), ("id", JVal.null)] : Kvs)),
      ("a/d2.json", [("uid", JVal.str "abc-2"), ("id", JVal.null),
        ("title", JVal.str "Dashboard (abc-2)")])] : List (String × Kvs)),
      ∃ u, lookupJ "uid" w.2 = some (.str u) ∧ uidAllowed u = true :=
  claim_c2_uid_unique_and_valid
    ⟨true, [("a/d1.json", .val (.obj [("uid", .str "abc")])),
            ("a/d2.json", .val (.obj [("uid", .str "abc")]))]⟩ 9 _ _ _ rfl

/-- C3: the claim states uid collision resolution always terminates with a
fresh uid.  With two documents whose uid is the maximal-length string of 40
`a`s, `ensure_uid (base ++ "-" ++ i)` truncates back to `base` for every `i`,
so the `while dash_uid in used_uids` loop never terminates: for every fuel
bound the run is still inside the loop. -/
theorem claim_c3_collision_loop_diverges :
    ∀ fuel, mainRun collideInput fuel = Outcome.fuelOut :=
  fun fuel => mainRun_collide_stuck fuel

/-- C4 counterexample: an object datasource that matches the Prometheus rules
but carries an extra key keeps that key, so the result is not exactly the
two-key canonical object the claim demands. -/
theorem claim_c4_counterexample :
    normalize_datasource_value (.obj [("type", .str "prometheus"),
        ("uid", .str "x"), ("custom", .num 1)]) =
      .obj [("type", .str "prometheus"), ("uid", .str PROM_UID),
        ("custom", .num 1)] ∧
    normalize_datasource_value (.obj [("type", .str "prometheus"),
        ("uid", .str "x"), ("custom", .num 1)]) ≠ prom_ds_object ∧
    lookupJ "custom" [("type", JVal.str "prometheus"),
      ("uid", JVal.str PROM_UID), ("custom", JVal.num 1)] = some (.num 1) := by
  refine ⟨rfl, ?_, rfl⟩
  decide

/-- C4 (amended): for a matching object datasource that is not the Grafana
internal one, normalization sets `type`/`uid` to the canonical strings and
removes `name`, while every other key keeps its value; a matching string
datasource is replaced by exactly the canonical object. -/
theorem claim_c4_datasource_normalization :
    (∀ kvs : Kvs, (kvs.map Prod.fst).Nodup →
      is_grafana_internal_ds kvs = false → looks_like_prom kvs = true →
      ∃ kvs', normalize_datasource_value (.obj kvs) = .obj kvs' ∧
        lookupJ "type" kvs' = some (.str "prometheus") ∧
        lookupJ "uid" kvs' = some (.str PROM_UID) ∧
        lookupJ "name" kvs' = none ∧
        ∀ k, k ≠ "type" → k ≠ "uid" → k ≠ "name" →
          lookupJ k kvs' = lookupJ k kvs) ∧
    (∀ s : String, pyStrip s = PROM_NAME ∨ pyStrip s = PROM_UID ∨
      pyStrip s = "$\x7bDS_PROMETHEUS\x7d" →
      normalize_datasource_value (.str s) = prom_ds_object) := by
  constructor
  · intro kvs hnd hint hprom
    refine ⟨popKV "name" (setKV "uid" (.str PROM_UID)
      (setKV "type" (.str "prometheus") kvs)), ?_, ?_, ?_, ?_, ?_⟩
    · unfold normalize_datasource_value
      dsimp only
      rw [if_neg (by simp [hint]), if_pos hprom]
    · rw [lookupJ_popKV_ne _ _ _ (by decide),
        lookupJ_setKV_ne _ _ _ _ (by decide), lookupJ_setKV_self]
    · rw [lookupJ_popKV_ne _ _ _ (by decide), lookupJ_setKV_self]
    · exact lookupJ_popKV_self_of_nodup _ _
        (keys_nodup_setKV _ _ _ (keys_nodup_setKV _ _ _ hnd))
    · intro k hk1 hk2 hk3
      rw [lookupJ_popKV_ne _ _ _ hk3, lookupJ_setKV_ne _ _ _ _ hk2,
        lookupJ_setKV_ne _ _ _ _ hk1]
  · intro s hs
    unfold normalize_datasource_value
    dsimp only
    rw [if_neg, if_pos]
    · rcases hs with h | h | h <;> rw [h] <;> simp [PROM_NAME, PROM_UID]
    · intro he
      rcases hs with h | h | h <;> rw [h] at he <;> exact absurd he (by decide)

/-- Witness for C4 at an object carrying an extra key and at the broken
placeholder string. -/
theorem claim_c4_witness :
    (∃ kvs', normalize_datasource_value (.obj [("name", .str "Prometheus"),
        ("x", .num 2)]) = .obj kvs' ∧
      lookupJ "type" kvs' = some (.str "prometheus") ∧
      lookupJ "uid" kvs' = some (.str PROM_UID) ∧
      lookupJ "name" kvs' = none ∧
      ∀ k, k ≠ "type" → k ≠ "uid" → k ≠ "name" →
        lookupJ k kvs' = lookupJ k [("name", JVal.str "Prometheus"),
          ("x", JVal.num 2)]) ∧
    normalize_datasource_value (.str "$\x7bDS_PROMETHEUS\x7d") = prom_ds_object :=
  ⟨claim_c4_datasource_normalization.1 [("name", .str "Prometheus"),
      ("x", .num 2)] (by decide) (by decide) (by decide),
   claim_c4_datasource_normalization.2 "$\x7bDS_PROMETHEUS\x7d"
      (Or.inr (Or.inr (by decide)))⟩

/-- C5 counterexample: the plain string form of the internal annotations
datasource is not returned unchanged — it is converted to the object form. -/
theorem claim_c5_counterexample :
    normalize_datasource_value (.str "-- Grafana --") =
      .obj [("type", .str "grafana"), ("uid", .str "-- Grafana --")] ∧
    normalize_datasource_value (.str "-- Grafana --") ≠
      .str "-- Grafana --" := by
  refine ⟨rfl, ?_⟩
  decide

/-- C5 (amended): every object form of the Grafana internal datasource (type
`"grafana"` or uid `"-- Grafana --"`) is returned unchanged; the plain string
form is converted to the canonical internal object (never to the Prometheus
object). -/
theorem claim_c5_internal_untouched :
    (∀ kvs : Kvs, is_grafana_internal_ds kvs = true →
      normalize_datasource_value (.obj kvs) = .obj kvs) ∧
    normalize_datasource_value (.str GRAFANA_INTERNAL_UID) =
      .obj [("type", .str GRAFANA_INTERNAL_TYPE),
            ("uid", .str GRAFANA_INTERNAL_UID)] := by
  constructor
  · intro kvs hint
    unfold normalize_datasource_value
    dsimp only
    rw [if_pos hint]
  · rfl

/-- Witness for C5 at the two standard internal-object forms. -/
theorem claim_c5_witness :
    normalize_datasource_value (.obj [("type", .str "grafana")]) =
      .obj [("type", .str "grafana")] ∧
    normalize_datasource_value (.obj [("uid", .str "-- Grafana --"),
        ("enable", .bool true)]) =
      .obj [("uid", .str "-- Grafana --"), ("enable", .bool true)] :=
  ⟨claim_c5_internal_untouched.1 [("type", .str "grafana")] (by decide),
   claim_c5_internal_untouched.1 [("uid", .str "-- Grafana --"),
      ("enable", .bool true)] (by decide)⟩

/-- C6 counterexample: a document whose current uid is present but invalid per
the character class is slugified from that uid value, not from the file path:
`"My Dashboard!"` becomes `"my-dashboard"`, while the path slug of
`docker/foo.json` would be `"docker-foo"`. -/
theorem claim_c6_counterexample :
    uidAllowed "My Dashboard!" = false ∧
    deriveBaseUid [] "docker/foo.json" [("uid", JVal.str "My Dashboard!")] =
      "my-dashboard" ∧
    make_default_uid_for_file "docker/foo.json" = "docker-foo" ∧
    ("my-dashboard" : String) ≠ "docker-foo" := by
  refine ⟨by decide, rfl, rfl, by decide⟩

/-- C6 (amended): with no applicable manifest uid, the path-derived default
uid is used exactly when the current uid is absent, not a string, or blank
after stripping; a present invalid string uid is instead slugified from the
uid value itself. -/
theorem claim_c6_default_uid (mmap : List (String × Option String)) (p : String)
    (dash : Kvs)
    (h1 : ∀ mu, mLookup p mmap = some (some mu) → mu = "")
    (h2 : ∀ s, lookupJ "uid" dash = some (.str s) → pyStrip s = "") :
    deriveBaseUid mmap p dash = make_default_uid_for_file p := by
  have hfd : deriveFromDoc p dash = make_default_uid_for_file p := by
    unfold deriveFromDoc
    cases hu : lookupJ "uid" dash with
    | none => rfl
    | some v =>
      cases v with
      | str s =>
        dsimp only
        rw [if_neg]
        simp [h2 s hu]
      | null => rfl
      | bool b => rfl
      | num n => rfl
      | arr xs => rfl
      | obj kvs => rfl
  unfold deriveBaseUid
  cases hm : mLookup p mmap with
  | none => exact hfd
  | some o =>
    cases o with
    | none => exact hfd
    | some mu =>
      dsimp only
      rw [if_neg]
      · exact hfd
      · simp [h1 mu hm]

/-- Witness for C6 at a document with no uid at all. -/
theorem claim_c6_witness :
    deriveBaseUid [] "docker/node.json" [("title", JVal.str "N")] =
      make_default_uid_for_file "docker/node.json" :=
  claim_c6_default_uid [] "docker/node.json" [("title", JVal.str "N")]
    (fun mu hmu => by cases hmu) (fun s hs => by cases hs)

/-- C7 counterexample: dashboard A (`a/link.json`) embeds B's old uid
`"bad uid!"` as a quoted string; B's uid changes to `"bad-uid"` during the
run, yet A's written JSON text still contains the old uid and never contains
the new one — there is no cross-reference rewriting in this version. -/
theorem claim_c7_counterexample :
    mainRun ⟨true, [("a/link.json", .val (.obj [("uid", .str "aaa"),
        ("ref", .str "bad uid!")])),
      ("b/dash.json", .val (.obj [("uid", .str "bad uid!")]))]⟩ 9 =
      .ok [("a/link.json",
              [("uid", .str "aaa"), ("ref", .str "bad uid!"), ("id", .null)]),
           ("b/dash.json", [("uid", .str "bad-uid"), ("id", .null)])] [] 0 ∧
    strHasSub "\"bad uid!\"" (dumpsDoc [("uid", JVal.str "aaa"),
      ("ref", JVal.str "bad uid!"), ("id", JVal.null)]) = true ∧
    strHasSub "bad-uid" (dumpsDoc [("uid", JVal.str "aaa"),
      ("ref", JVal.str "bad uid!"), ("id", JVal.null)]) = false ∧
    ("bad-uid" : String) ≠ "bad uid!" := by
  refine ⟨rfl, rfl, rfl, by decide⟩

/-- C7 (amended): the tool performs no cross-reference fixing: every string
value stored under a key other than `id`, `uid`, `title`, `__inputs` and
`datasource` reaches the written output unchanged, so another dashboard's old
uid embedded there is still the old uid after the run. -/
theorem claim_c7_no_crossref_rewrite (inp : RunInput) (fuel : Nat)
    (writes : List (String × Kvs)) (angs : List String) (bad : Nat)
    (docs : List (String × Kvs)) (hld : loadDocs inp.files = .ok docs)
    (h : mainRun inp fuel = .ok writes angs bad) :
    List.Forall₂ (fun d w => w.1 = d.1 ∧
      ∀ k s, k ≠ "id" → k ≠ "uid" → k ≠ "title" → k ≠ "__inputs" →
        k ≠ "datasource" → lookupJ k d.2 = some (.str s) →
        lookupJ k w.2 = some (.str s)) docs writes := by
  obtain ⟨mmap, docs0, docs2, angs2, seen2, hm, hd, hpa, hdg⟩ :=
    mainRun_ok_elim inp fuel writes angs bad h
  have hde : docs0 = docs := by
    rw [hld] at hd
    injection hd with hd
    exact hd.symm
  subst hde
  have hf1 := processAll_forall₂ mmap fuel docs0 [] docs2 angs2 hpa
  have hf2 := dedupGo_forall₂ fuel docs2 [] writes seen2 hdg
  refine forall₂_comp _ _ _ ?_ docs0 docs2 writes hf1 hf2
  intro a b c hab hbc
  obtain ⟨hp1, hpres⟩ := hab
  refine ⟨hbc.1.trans hp1, ?_⟩
  intro k s hk1 hk2 hk3 hk4 hk5 hval
  rw [dedupRel_lookup k hk3 b c hbc]
  rw [hpres k hk1 hk2 hk4 hk5, hval]
  rfl

/-- Witness for C7 at the counterexample run. -/
theorem claim_c7_witness :
    List.Forall₂ (fun d w => w.1 = d.1 ∧
      ∀ k s, k ≠ "id" → k ≠ "uid" → k ≠ "title" → k ≠ "__inputs" →
        k ≠ "datasource" → lookupJ k d.2 = some (.str s) →
        lookupJ k w.2 = some (.str s))
      [("a/link.json", ([("uid", JVal.str "aaa"),
          ("ref", JVal.str "bad uid!")] : Kvs)),
       ("b/dash.json", [("uid", JVal.str "bad uid!")])]
      [("a/link.json", [("uid", JVal.str "aaa"), ("ref", JVal.str "bad uid!"),
          ("id", JVal.null)]),
       ("b/dash.json", [("uid", JVal.str "bad-uid"), ("id", JVal.null)])] :=
  claim_c7_no_crossref_rewrite
    ⟨true, [("a/link.json", .val (.obj [("uid", .str "aaa"),
        ("ref", .str "bad uid!")])),
      ("b/dash.json", .val (.obj [("uid", .str "bad uid!")]))]⟩ 9 _ [] 0 _
    rfl rfl

/-- C8 counterexample: with documents titled `" A "` then `"A"` in one folder,
the second document is the first one whose title is literally `"A"`, yet the
code compares whitespace-stripped titles and retitles it to `"A (u2)"` —
contradicting the claim that the first document encountered with a given
title keeps it. -/
theorem claim_c8_counterexample :
    ensure_unique_titles_per_folder
      [("a/x.json", [("title", .str " A "), ("uid", .str "u1")]),
       ("a/y.json", [("title", .str "A"), ("uid", .str "u2")])] 9 =
      some [("a/x.json", [("title", .str " A "), ("uid", .str "u1")]),
            ("a/y.json", [("title", .str "A (u2)"), ("uid", .str "u2")])] ∧
    (" A " : String) ≠ "A" ∧ ("A (u2)" : String) ≠ "A" := by
  refine ⟨rfl, by decide, by decide⟩

/-- C8 (amended): after deduplication no two documents of the same folder
carry identical title strings, and every document is either kept unchanged or
retitled to the composite `"{title} ({uid})"` form, with `-2`, `-3`, …
appended to the uid portion, where title and uid are the derived
(whitespace-stripped, defaulted) strings. -/
theorem claim_c8_title_dedup (docs : List (String × Kvs)) (fuel : Nat)
    (docs' : List (String × Kvs))
    (h : ensure_unique_titles_per_folder docs fuel = some docs') :
    docs'.Pairwise (fun d1 d2 => parentDir d1.1 = parentDir d2.1 →
      ∀ s, lookupJ "title" d1.2 = some (.str s) →
        lookupJ "title" d2.2 ≠ some (.str s)) ∧
    List.Forall₂ dedupRel docs docs' := by
  unfold ensure_unique_titles_per_folder at h
  cases hdg : dedupGo fuel [] docs with
  | none => rw [hdg] at h; exact absurd h (by simp)
  | some pr =>
    obtain ⟨docs0, seen'⟩ := pr
    rw [hdg] at h
    injection h with h
    subst h
    constructor
    · have hpw := (dedupGo_keys fuel docs [] docs0 seen' hdg).2
      refine hpw.imp ?_
      intro d1 d2 hne hfold s h1 h2
      apply hne hfold
      unfold derivedTitle
      rw [h1, h2]
    · exact dedupGo_forall₂ fuel docs [] docs0 seen' hdg

/-- Witness for C8 at the counterexample input. -/
theorem claim_c8_witness :
    ([("a/x.json", ([("title", JVal.str " A "), ("uid", JVal.str "u1")] : Kvs)),
      ("a/y.json", [("title", JVal.str "A (u2)"), ("uid", JVal.str "u2")])] :
      List (String × Kvs)).Pairwise
        (fun d1 d2 => parentDir d1.1 = parentDir d2.1 →
          ∀ s, lookupJ "title" d1.2 = some (.str s) →
            lookupJ "title" d2.2 ≠ some (.str s)) ∧
    List.Forall₂ dedupRel
      [("a/x.json", [("title", JVal.str " A "), ("uid", JVal.str "u1")]),
       ("a/y.json", [("title", JVal.str "A"), ("uid", JVal.str "u2")])]
      [("a/x.json", [("title", JVal.str " A "), ("uid", JVal.str "u1")]),
       ("a/y.json", [("title", JVal.str "A (u2)"), ("uid", JVal.str "u2")])] :=
  claim_c8_title_dedup
    [("a/x.json", [("title", .str " A "), ("uid", .str "u1")]),
     ("a/y.json", [("title", .str "A"), ("uid", .str "u2")])] 9 _ rfl

/-- C9: exit status of the run: 0 on a completed run (warnings included —
they are carried in the `ok` payload and never change the code); 2 when the
dashboards root is missing; a failing parse of some input file exits 3 (or 1
when the failure is raised while loading the manifest); a present
`manifest.json` that is invalid JSON raises, exiting 1 — in every case a
non-zero status. -/
theorem claim_c9_exit_codes (inp : RunInput) (fuel : Nat) :
    (∀ writes angs bad, mainRun inp fuel = .ok writes angs bad →
      exitCodeOf (mainRun inp fuel) = some 0) ∧
    (inp.rootExists = false → mainRun inp fuel = .err 2 ∧
      exitCodeOf (mainRun inp fuel) = some 2) ∧
    (inp.rootExists = true → (∃ e ∈ inp.files, e.2 = FileContent.invalid) →
      exitCodeOf (mainRun inp fuel) = some 3 ∨
        exitCodeOf (mainRun inp fuel) = some 1) ∧
    (inp.rootExists = true → findManifest inp.files = some FileContent.invalid →
      mainRun inp fuel = .exc ∧ exitCodeOf (mainRun inp fuel) = some 1) := by
  refine ⟨?_, ?_, ?_, ?_⟩
  · intro writes angs bad h
    rw [h]
    rfl
  · intro hr
    have h : mainRun inp fuel = .err 2 := by
      unfold mainRun
      rw [if_pos (by simp [hr])]
    exact ⟨h, by rw [h]; rfl⟩
  · intro hr hbad
    unfold mainRun
    rw [if_neg (by simp [hr])]
    cases hm : loadManifest (findManifest inp.files) with
    | error e => exact Or.inr rfl
    | ok mmap =>
      have hld : loadDocs inp.files = .error 3 := by
        apply loadDocs_error_of_bad
        obtain ⟨e, he, hinv⟩ := hbad
        exact ⟨e, he, Or.inl hinv⟩
      rw [hld]
      exact Or.inl rfl
  · intro hr hmf
    have h : mainRun inp fuel = .exc := by
      unfold mainRun
      rw [if_neg (by simp [hr]), hmf]
      rfl
    exact ⟨h, by rw [h]; rfl⟩

/-- Witness for C9: a missing root exits 2; an unparseable dashboard file
exits 3 or 1; an invalid manifest raises (exit 1); a completed run exits 0. -/
theorem claim_c9_witness :
    (mainRun ⟨false, []⟩ 5 = .err 2 ∧
      exitCodeOf (mainRun ⟨false, []⟩ 5) = some 2) ∧
    (exitCodeOf (mainRun ⟨true, [("a/x.json", FileContent.invalid)]⟩ 5) =
        some 3 ∨
      exitCodeOf (mainRun ⟨true, [("a/x.json", FileContent.invalid)]⟩ 5) =
        some 1) ∧
    (mainRun ⟨true, [("manifest.json", FileContent.invalid)]⟩ 5 = .exc ∧
      exitCodeOf (mainRun ⟨true, [("manifest.json", FileContent.invalid)]⟩ 5) =
        some 1) ∧
    exitCodeOf (mainRun ⟨true, [("a/x.json",
      .val (.obj [("uid", .str "u")]))]⟩ 5) = some 0 :=
  ⟨(claim_c9_exit_codes ⟨false, []⟩ 5).2.1 rfl,
   (claim_c9_exit_codes ⟨true, [("a/x.json", FileContent.invalid)]⟩ 5).2.2.1
     rfl ⟨("a/x.json", FileContent.invalid), by simp, rfl⟩,
   (claim_c9_exit_codes ⟨true, [("manifest.json", FileContent.invalid)]⟩ 5).2.2.2
     rfl rfl,
   (claim_c9_exit_codes ⟨true, [("a/x.json",
      .val (.obj [("uid", .str "u")]))]⟩ 5).1 _ _ _ rfl⟩

/-- C10 counterexample: a `*.json` file whose valid JSON is not an object
does not always exit with code 3: when that file is `manifest.json` itself,
`load_manifest` raises (`.get` on a non-dict) and the run aborts with an
uncaught exception, exit status 1. -/
theorem claim_c10_counterexample :
    mainRun ⟨true, [("manifest.json", .val (.arr [.num 1])),
        ("a/x.json", .val (.obj []))]⟩ 9 = Outcome.exc ∧
    exitCodeOf (mainRun ⟨true, [("manifest.json", .val (.arr [.num 1])),
        ("a/x.json", .val (.obj []))]⟩ 9) = some 1 ∧
    (1 : Int) ≠ 3 := by
  refine ⟨rfl, rfl, by decide⟩

/-- C10 (amended): a valid-JSON non-object file under an existing root aborts
the whole run before anything is written — with exit code 3 from the document
loading loop, or with an uncaught exception (exit 1) when the abort already
happens while loading `manifest.json`; in no case does the run reach the
write-back phase. -/
theorem claim_c10_nonobject_aborts (inp : RunInput) (fuel : Nat)
    (hr : inp.rootExists = true)
    (hbad : ∃ e ∈ inp.files, ∃ v, e.2 = FileContent.val v ∧
      ∀ kvs, v ≠ JVal.obj kvs) :
    (mainRun inp fuel = .err 3 ∨ mainRun inp fuel = .exc) ∧
    ∀ writes angs bad, mainRun inp fuel ≠ .ok writes angs bad := by
  have hmain : mainRun inp fuel = .err 3 ∨ mainRun inp fuel = .exc := by
    unfold mainRun
    rw [if_neg (by simp [hr])]
    cases hm : loadManifest (findManifest inp.files) with
    | error e => exact Or.inr rfl
    | ok mmap =>
      have hld : loadDocs inp.files = .error 3 := by
        apply loadDocs_error_of_bad
        obtain ⟨e, he, v, hv, hnv⟩ := hbad
        exact ⟨e, he, Or.inr ⟨v, hv, hnv⟩⟩
      rw [hld]
      exact Or.inl rfl
  refine ⟨hmain, ?_⟩
  intro writes angs bad h
  rcases hmain with h2 | h2 <;> rw [h] at h2 <;> exact Outcome.noConfusion h2

/-- Witness for C10 at a root holding a single array-valued file. -/
theorem claim_c10_witness :
    (mainRun ⟨true, [("a/x.json", .val (.arr []))]⟩ 7 = .err 3 ∨
      mainRun ⟨true, [("a/x.json", .val (.arr []))]⟩ 7 = .exc) ∧
    ∀ writes angs bad,
      mainRun ⟨true, [("a/x.json", .val (.arr []))]⟩ 7 ≠ .ok writes angs bad :=
  claim_c10_nonobject_aborts ⟨true, [("a/x.json", .val (.arr []))]⟩ 7 rfl
    ⟨("a/x.json", .val (.arr [])), by simp,
      ⟨.arr [], rfl, fun kvs h => JVal.noConfusion h⟩⟩

/-!  Correctness of the `walkNormed`/`walkDSEnts` fusion: walking the dict
rewritten by `normalize_datasource_value` is exactly the single pass
`walkDSEnts`, so `walkNormed` is `walkVal` composed with the normalizer. -/

theorem walkDSEnts_bridge :
    ∀ (kvs : Kvs) (tD uD nD ds : Bool),
      walkDSEnts tD uD nD ds kvs = walkEnts ds
        (if nD then
          (if uD then (if tD then kvs else setKV "type" (.str "prometheus") kvs)
           else setKV "uid" (.str PROM_UID)
             (if tD then kvs else setKV "type" (.str "prometheus") kvs))
         else popKV "name"
          (if uD then (if tD then kvs else setKV "type" (.str "prometheus") kvs)
           else setKV "uid" (.str PROM_UID)
             (if tD then kvs else setKV "type" (.str "prometheus") kvs))) := by
  intro kvs
  induction kvs with
  | nil =>
    intro tD uD nD ds
    cases tD <;> cases uD <;> cases nD <;> rfl
  | cons e rest ih =>
    intro tD uD nD ds
    obtain ⟨k, v⟩ := e
    have hsetT : ∀ (k' : String) (v' : JVal) (l : Kvs),
        (tD = true ∨ ¬ k' = "type") →
        (if tD then ((k', v') :: l : Kvs)
          else setKV "type" (.str "prometheus") ((k', v') :: l)) =
        (k', v') :: (if tD then l else setKV "type" (.str "prometheus") l) := by
      intro k' v' l h
      rcases h with h | h
      · subst h; simp
      · cases tD
        · simp [setKV, fun he => h (Eq.symm he), h]
        · simp
    have hsetU : ∀ (k' : String) (v' : JVal) (l : Kvs),
        (uD = true ∨ ¬ k' = "uid") →
        (if uD then ((k', v') :: l : Kvs)
          else setKV "uid" (.str PROM_UID) ((k', v') :: l)) =
        (k', v') :: (if uD then l else setKV "uid" (.str PROM_UID) l) := by
      intro k' v' l h
      rcases h with h | h
      · subst h; simp
      · cases uD
        · simp [setKV, fun he => h (Eq.symm he), h]
        · simp
    have hpopN : ∀ (k' : String) (v' : JVal) (l : Kvs),
        (nD = true ∨ ¬ k' = "name") →
        (if nD then ((k', v') :: l : Kvs)
          else popKV "name" ((k', v') :: l)) =
        (k', v') :: (if nD then l else popKV "name" l) := by
      intro k' v' l h
      rcases h with h | h
      · subst h; simp
      · cases nD
        · simp [popKV, fun he => h (Eq.symm he), h]
        · simp
    have hwalk : ∀ (k' : String) (v' : JVal) (l : Kvs) (b : Bool),
        ¬ k' = "datasource" →
        walkEnts b ((k', v') :: l) = (k', walkVal v') :: walkEnts b l := by
      intro k' v' l b h
      rw [walkEnts, if_neg (fun hh => h hh.1)]
    by_cases hty : k = "type" ∧ ¬tD
    · obtain ⟨hk, htD⟩ := hty
      subst hk
      have htD' : tD = false := by simpa using htD
      subst htD'
      rw [walkDSEnts, if_pos ⟨rfl, by simp⟩]
      have h1 : (if (false : Bool) then ((("type", v) :: rest) : Kvs)
          else setKV "type" (.str "prometheus") (("type", v) :: rest)) =
          ("type", JVal.str "prometheus") :: rest := by
        simp [setKV]
      rw [h1]
      rw [hsetU "type" (.str "prometheus") rest (Or.inr (by decide))]
      rw [hpopN "type" (.str "prometheus") _ (Or.inr (by decide))]
      rw [hwalk "type" (.str "prometheus") _ ds (by decide)]
      rw [ih true uD nD ds]
      cases uD <;> cases nD <;> simp [walkVal]
    · by_cases hud : k = "uid" ∧ ¬uD
      · obtain ⟨hk, huD⟩ := hud
        subst hk
        have huD' : uD = false := by simpa using huD
        subst huD'
        rw [walkDSEnts, if_neg hty, if_pos ⟨rfl, by simp⟩]
        rw [hsetT "uid" v rest (Or.inr (by decide))]
        have h1 : (if (false : Bool) then
            ((("uid", v) :: (if tD then rest
              else setKV "type" (.str "prometheus") rest)) : Kvs)
            else setKV "uid" (.str PROM_UID) (("uid", v) :: (if tD then rest
              else setKV "type" (.str "prometheus") rest))) =
            ("uid", JVal.str PROM_UID) :: (if tD then rest
              else setKV "type" (.str "prometheus") rest) := by
          simp [setKV]
        rw [h1]
        rw [hpopN "uid" (.str PROM_UID) _ (Or.inr (by decide))]
        rw [hwalk "uid" (.str PROM_UID) _ ds (by decide)]
        rw [ih tD true nD ds]
        cases nD <;> simp [walkVal]
      · by_cases hnm : k = "name" ∧ ¬nD
        · obtain ⟨hk, hnD⟩ := hnm
          subst hk
          have hnD' : nD = false := by simpa using hnD
          subst hnD'
          rw [walkDSEnts, if_neg hty, if_neg hud, if_pos ⟨rfl, by simp⟩]
          rw [hsetT "name" v rest (by
            by_cases hk : tD = true
            · exact Or.inl hk
            · exact Or.inr (by decide))]
          rw [hsetU "name" v _ (by
            by_cases hk : uD = true
            · exact Or.inl hk
            · exact Or.inr (by decide))]
          have h1 : (if (false : Bool) then
              ((("name", v) :: (if uD then (if tD then rest
                else setKV "type" (.str "prometheus") rest)
                else setKV "uid" (.str PROM_UID) (if tD then rest
                  else setKV "type" (.str "prometheus") rest))) : Kvs)
              else popKV "name" (("name", v) :: (if uD then (if tD then rest
                else setKV "type" (.str "prometheus") rest)
                else setKV "uid" (.str PROM_UID) (if tD then rest
                  else setKV "type" (.str "prometheus") rest)))) =
              (if uD then (if tD then rest
                else setKV "type" (.str "prometheus") rest)
                else setKV "uid" (.str PROM_UID) (if tD then rest
                  else setKV "type" (.str "prometheus") rest)) := by
            simp [popKV]
          rw [h1]
          rw [ih tD uD true ds]
          simp
        · by_cases hds : k = "datasource" ∧ ¬ds
          · obtain ⟨hk, hds'⟩ := hds
            subst hk
            have hds2 : ds = false := by simpa using hds'
            subst hds2
            rw [walkDSEnts, if_neg hty, if_neg hud, if_neg hnm,
              if_pos ⟨rfl, by simp⟩]
            rw [hsetT "datasource" v rest (by
              by_cases hk : tD = true
              · exact Or.inl hk
              · exact Or.inr (by decide))]
            rw [hsetU "datasource" v _ (by
              by_cases hk : uD = true
              · exact Or.inl hk
              · exact Or.inr (by decide))]
            rw [hpopN "datasource" v _ (by
              by_cases hk : nD = true
              · exact Or.inl hk
              · exact Or.inr (by decide))]
            rw [walkEnts, if_pos ⟨rfl, by simp⟩]
            rw [ih tD uD nD true]
          · rw [walkDSEnts, if_neg hty, if_neg hud, if_neg hnm, if_neg hds]
            rw [hsetT k v rest (by
              by_cases hk : k = "type"
              · left
                by_contra htD
                exact hty ⟨hk, by simpa using htD⟩
              · exact Or.inr hk)]
            rw [hsetU k v _ (by
              by_cases hk : k = "uid"
              · left
                by_contra huD
                exact hud ⟨hk, by simpa using huD⟩
              · exact Or.inr hk)]
            rw [hpopN k v _ (by
              by_cases hk : k = "name"
              · left
                by_contra hnD
                exact hnm ⟨hk, by simpa using hnD⟩
              · exact Or.inr hk)]
            rw [walkEnts, if_neg hds]
            rw [ih tD uD nD ds]

theorem walkNormed_eq (v : JVal) :
    walkNormed v = walkVal (normalize_datasource_value v) := by
  cases v with
  | obj kvs =>
    rw [walkNormed, normalize_datasource_value]
    by_cases hint : is_grafana_internal_ds kvs
    · rw [if_pos hint, if_pos hint]
      rfl
    · rw [if_neg hint, if_neg hint]
      by_cases hprom : looks_like_prom kvs
      · rw [if_pos hprom, if_pos hprom]
        have h := walkDSEnts_bridge kvs false false false false
        simp only [ite_false, Bool.false_eq_true, if_false] at h
        rw [h]
        rfl
      · rw [if_neg hprom, if_neg hprom]
        rfl
  | str s =>
    rw [walkNormed, normalize_datasource_value]
    by_cases h1 : pyStrip s = GRAFANA_INTERNAL_UID
    · rw [if_pos h1]
      rfl
    · rw [if_neg h1]
      by_cases h2 : pyStrip s = PROM_NAME ∨ pyStrip s = PROM_UID ∨
          pyStrip s = "$\x7bDS_PROMETHEUS\x7d"
      · rw [if_pos h2]
        rfl
      · rw [if_neg h2]
        rfl
  | arr xs => rfl
  | null => rfl
  | bool b => rfl
  | num n => rfl
